import Mathlib

/-!
Verification development for the radiology dictation application.

Text handled by the application is modelled as `List Char` (`Str`), so that
the JavaScript string primitives used by the source (`split`, `trim`, `join`,
`endsWith`) become executable Lean functions with provable equations.
Audio blobs are byte lists with a MIME-type label; the external transcription,
continuation, modification and chat clients are modelled as explicit outcome
parameters (`Except`), since a client call either returns a value or throws.
-/

namespace RadReport

/-- Application text: JavaScript strings modelled as lists of characters. -/
abbrev Str := List Char

/-- The structured-finding delimiter used throughout the source. -/
def hashSep : Str := "###".data

/-- A single newline, the join separator for rendering structured findings. -/
def nlSep : Str := "\n".data

/-- Double newline, the join separator used when synthesizing chat text. -/
def nl2Sep : Str := "\n\n".data

/-- JavaScript `String.prototype.trim`: whitespace dropped from both ends. -/
def jsTrim (s : Str) : Str :=
  ((s.dropWhile Char.isWhitespace).reverse.dropWhile Char.isWhitespace).reverse

/-- Worker for `jsSplit`, structurally recursive on the scanned characters.
The `skip` counter discards the remaining characters of a separator match. -/
def jsSplitA (sep : Str) : Str → Nat → List Str
  | [], _ => [[]]
  | _ :: rest, Nat.succ k => jsSplitA sep rest k
  | c :: rest, 0 =>
    if sep ≠ [] ∧ sep.isPrefixOf (c :: rest) then
      [] :: jsSplitA sep rest (sep.length - 1)
    else
      match jsSplitA sep rest 0 with
      | [] => [[c]]
      | t :: ts => (c :: t) :: ts

/-- JavaScript `s.split(sep)` for a non-empty separator: scans left to right,
splitting at every non-overlapping occurrence of `sep`. -/
def jsSplit (sep s : Str) : List Str := jsSplitA sep s 0

/-! ### The Finding Model

`parseStructuredFinding`, the re-serialization performed when a manual
edit is saved, the renderer used by the copy paths, and the per-finding
append used by the stop-dictation handlers, all translated from the
source components. -/

/-- Result of `parseStructuredFinding` in the source: a structured flag,
a title and the sub-points. -/
structure ParsedFinding where
  isStructured : Bool
  title : Str
  points : List Str
deriving DecidableEq

/-- `parseStructuredFinding` from `ResultsDisplay`/`BatchProcessor`: split on
`"###"`; structured iff more than one part and a non-blank first part. -/
def parseStructuredFinding (finding : Str) : ParsedFinding :=
  let parts := jsSplit hashSep finding
  if 1 < parts.length ∧ jsTrim (parts.headD []) ≠ [] then
    { isStructured := true
      title := parts.headD []
      points := (parts.drop 1).filter (fun p => jsTrim p ≠ []) }
  else
    { isStructured := false, title := finding, points := [] }

/-- Serialization of a segment list: blank segments dropped, the rest joined
with `"###"` (the join performed by `handleSaveEdit` on the edited lines). -/
def serializeFinding (segs : List Str) : Str :=
  List.intercalate hashSep (segs.filter (fun s => jsTrim s ≠ []))

/-- `handleSaveEdit` re-encoding of the free-text editor content of a
structured finding: split on newlines, drop blank lines, join with `"###"`. -/
def saveEditReencode (editingText : Str) : Str :=
  serializeFinding (jsSplit nlSep editingText)

/-- Plain-text rendering of one finding as used by the copy handlers:
title and points joined by newlines when structured, the raw text otherwise. -/
def renderFindingPlain (f : Str) : Str :=
  let pf := parseStructuredFinding f
  if pf.isStructured then List.intercalate nlSep (pf.title :: pf.points)
  else f

/-- The per-finding append performed by `handleStopDictation` (both modes):
a single space separator unless the existing text is blank or already ends
in a space, then the trimmed continuation text. -/
def appendContinuation (existingText newText : Str) : Str :=
  let separator : Str :=
    if jsTrim existingText ≠ [] ∧ existingText.getLast? ≠ some ' '
    then [' '] else []
  existingText ++ separator ++ jsTrim newText

/-! ### Audio artifacts, chat, and the single-mode session

Blobs are byte payloads with a MIME label; `getCleanMimeType` is the
normalization shared by `App`, `BatchProcessor` and the service layer.
External client calls (`processAudio`, `createChat`, `continueAudioDictation`,
`modifyFindingWithAudio`) are modelled by `Except` outcome parameters. -/

/-- An opaque audio payload with its MIME-type label. -/
structure Blob where
  bytes : List Nat
  btype : Str
deriving DecidableEq

/-- JavaScript `blob.size`. -/
def blobSize (b : Blob) : Nat := b.bytes.length

/-- `getCleanMimeType`: empty type falls back to `audio/ogg`, WebM variants
collapse to `audio/webm`, anything else is cut at the first `;`. -/
def getCleanMimeType (b : Blob) : Str :=
  if b.btype = [] then "audio/ogg".data
  else if ("audio/webm".data).isPrefixOf b.btype ∨
      ("video/webm".data).isPrefixOf b.btype then "audio/webm".data
  else b.btype.takeWhile (fun c => c ≠ ';')

/-- `new Blob([a, b], { type: t })`: ordered byte concatenation. -/
def mergeTwoBlobs (a b : Blob) (t : Str) : Blob := ⟨a.bytes ++ b.bytes, t⟩

/-- `new Blob(parts, { type: t })` over a list of artifacts. -/
def mergeBlobList (l : List Blob) (t : Str) : Blob :=
  ⟨(l.map Blob.bytes).flatten, t⟩

inductive ChatAuthor
  | you
  | ai
deriving DecidableEq

structure ChatMessage where
  author : ChatAuthor
  text : Str
deriving DecidableEq

def emptyAudioError : Str :=
  "Recording or upload failed. The audio file is empty.".data

def noAudioReprocessError : Str := "No audio available to reprocess.".data

def noOriginalAudioError : Str :=
  "Original audio not found. Cannot continue dictation.".data

def batchNotFoundError : Str := "Original batch not found.".data

def greetInitial : Str :=
  "I have reviewed the audio and the transcript. How can I help you further?".data

def greetContinue : Str :=
  "I have updated the transcript with your new dictation. How can I help you further?".data

def greetBatch : Str :=
  "I have reviewed the audio and transcript for this dictation. How can I help you further?".data

def defaultModel : Str := "gemini-2.5-pro".data

/-- The synthesized first chat entry: findings joined by blank lines,
then the greeting. -/
def chatIntro (findings : List Str) (greeting : Str) : Str :=
  List.intercalate nl2Sep findings ++ nl2Sep ++ greeting

inductive AppStatus
  | idle
  | recording
  | processing
  | success
  | error
deriving DecidableEq

/-- The single-mode session state held by `App`. -/
structure SingleState where
  status : AppStatus
  findings : List Str
  error : Option Str
  audioBlob : Option Blob
  chat : Option Nat
  chatHistory : List ChatMessage
  selectedModel : Str
deriving DecidableEq

/-- `handleRecordingComplete`: the full transcription of one audio artifact.
`procRes` is the outcome of `processAudio`, `chatRes` that of `createChat`;
both are inside the same `try` in the source, so a `createChat` failure is
caught after the findings and audio were already stored. -/
def handleRecordingComplete (st : SingleState) (audioBlob : Blob)
    (procRes : Except Str (List Str)) (chatRes : Except Str Nat) :
    SingleState :=
  if blobSize audioBlob = 0 then
    { st with error := some emptyAudioError, status := .error }
  else
    let st1 := { st with status := .processing, error := none, findings := [] }
    match procRes with
    | .error e => { st1 with error := some e, status := .error }
    | .ok processedText =>
      let st2 := { st1 with
        findings := processedText
        audioBlob := some audioBlob }
      match chatRes with
      | .error e => { st2 with error := some e, status := .error }
      | .ok chatSession =>
        { st2 with
          chat := some chatSession
          chatHistory := [⟨.ai, chatIntro processedText greetInitial⟩]
          status := .success }

/-- `handleReprocess`: re-runs `handleRecordingComplete` on the stored
merged audio with the currently selected model. -/
def handleReprocess (st : SingleState)
    (procRes : Except Str (List Str)) (chatRes : Except Str Nat) :
    SingleState :=
  match st.audioBlob with
  | none => { st with error := some noAudioReprocessError, status := .error }
  | some blob => handleRecordingComplete st blob procRes chatRes

/-- `handleUpdateFinding`: replace at `index`, guarded so that an index with
no existing entry leaves the list unchanged. -/
def handleUpdateFinding (findings : List Str) (index : Nat) (newText : Str) :
    List Str :=
  if index < findings.length then findings.set index newText else findings

/-- `handleContinueDictation`: transcribe only the new audio, append the new
findings, merge the audio, then rebuild chat and conversation. Thrown errors
are re-thrown to the caller (second component); the session status is never
touched. A failure of `createChat` happens after `setFindings`/`setAudioBlob`
already ran. -/
def handleContinueDictation (st : SingleState) (newAudioBlob : Blob)
    (procRes : Except Str (List Str)) (chatRes : Except Str Nat) :
    SingleState × Option Str :=
  match st.audioBlob with
  | none => (st, some noOriginalAudioError)
  | some audioBlob =>
    match procRes with
    | .error e => (st, some e)
    | .ok newFindings =>
      let updatedFindings := st.findings ++ newFindings
      let st1 := { st with findings := updatedFindings }
      let mergedBlob :=
        mergeTwoBlobs audioBlob newAudioBlob (getCleanMimeType audioBlob)
      let st2 := { st1 with audioBlob := some mergedBlob }
      match chatRes with
      | .error e => (st2, some e)
      | .ok chatSession =>
        ({ st2 with
           chat := some chatSession
           chatHistory := [⟨.ai, chatIntro updatedFindings greetContinue⟩] },
         none)

/-! ### Snapshot restore (single mode) -/

/-- The shape of a persisted single-mode snapshot as read back from
storage; every field is optional because the raw object is untyped. -/
structure SavedAudio where
  data : Str
  type : Str
deriving DecidableEq

structure SavedSingle where
  findings : Option (List Str)
  audio : Option SavedAudio
  chatHistory : Option (List ChatMessage)
  selectedModel : Option Str
deriving DecidableEq

/-- `base64ToBlob`: the decoder (`atob`, an external platform primitive,
modelled by `dec`) may fail on malformed base64; the failure is caught
inside this function and an empty blob is returned. -/
def base64ToBlob (dec : Str → Option (List Nat)) (b64 mimeType : Str) :
    Blob :=
  match dec b64 with
  | some bytes => ⟨bytes, mimeType⟩
  | none => ⟨[], mimeType⟩

/-- The `App` load-state effect. `stored` is the raw storage read:
`none` when the key is absent, `.error` when `JSON.parse` (or anything
else inside the `try`) throws, `.ok` the parsed snapshot. The second
component records whether the storage key was removed. The asynchronous
chat re-creation is fire-and-forget with errors logged, so `chat` is left
as is here. -/
def loadSingleState (dec : Str → Option (List Nat)) (st : SingleState)
    (stored : Option (Except Unit SavedSingle)) : SingleState × Bool :=
  match stored with
  | none => (st, false)
  | some (.error _) => (st, true)
  | some (.ok saved) =>
    match saved.findings, saved.audio with
    | some fs, some au =>
      if 0 < fs.length then
        let blob := base64ToBlob dec au.data au.type
        ({ st with
           findings := fs
           audioBlob := some blob
           chatHistory := saved.chatHistory.getD []
           status := .success
           selectedModel := saved.selectedModel.getD defaultModel },
         false)
      else (st, false)
    | _, _ => (st, false)

/-! ### Per-finding interactive handlers of `ResultsDisplay` -/

inductive ContStatus
  | idle
  | recording
  | processing
deriving DecidableEq

/-- The continue-dictation banner state of `ResultsDisplay`. -/
structure ContStateS where
  status : ContStatus
  error : Option Str
deriving DecidableEq

/-- The interactive per-finding slots of `ResultsDisplay`. -/
structure RDState where
  editingIndex : Option Nat
  editingText : Str
  dictatingIndex : Option Nat
  dictateEditingIndex : Option Nat
  processingIndex : Option Nat
  continuationError : Option (Nat × Str)
deriving DecidableEq

/-- The runtime TypeError message raised by `undefined.trim()`, caught by
the handler when the captured index no longer has a finding. -/
def undefinedTrimError : Str :=
  "Cannot read properties of undefined (reading 'trim')".data

/-- `handleStopDictation` (single mode): stop the append recorder; if the
captured audio is absent or empty nothing further happens; otherwise the
continuation client runs and its result is appended to the finding at the
captured index. With no finding at that index, the separator computation
on `undefined` throws inside the same `try` after the client call. -/
def handleStopDictationS (findings : List Str) (rd : RDState)
    (stopRes : Option Blob) (contRes : Except Str Str) :
    List Str × RDState :=
  match rd.dictatingIndex with
  | none => (findings, rd)
  | some currentIndex =>
    let rd1 := { rd with dictatingIndex := none }
    match stopRes with
    | some audioBlob =>
      if 0 < blobSize audioBlob then
        match contRes with
        | .ok newText =>
          match findings.get? currentIndex with
          | some existingText =>
            (handleUpdateFinding findings currentIndex
              (appendContinuation existingText newText),
             { rd1 with processingIndex := none })
          | none =>
            (findings, { rd1 with
              processingIndex := none
              continuationError := some (currentIndex, undefinedTrimError) })
        | .error e =>
          (findings, { rd1 with
            processingIndex := none
            continuationError := some (currentIndex, e) })
      else (findings, rd1)
    | none => (findings, rd1)

/-- `handleStopDictateEdit` (single mode): like `handleStopDictationS` but
the modify client returns a complete replacement string. -/
def handleStopDictateEditS (findings : List Str) (rd : RDState)
    (stopRes : Option Blob) (modRes : Except Str Str) :
    List Str × RDState :=
  match rd.dictateEditingIndex with
  | none => (findings, rd)
  | some currentIndex =>
    let rd1 := { rd with dictateEditingIndex := none }
    match stopRes with
    | some audioBlob =>
      if 0 < blobSize audioBlob then
        match modRes with
        | .ok modifiedText =>
          (handleUpdateFinding findings currentIndex modifiedText,
           { rd1 with processingIndex := none })
        | .error e =>
          (findings, { rd1 with
            processingIndex := none
            continuationError := some (currentIndex, e) })
      else (findings, rd1)
    | none => (findings, rd1)

/-- `handleStopContinue` (single mode): stop the continuation recorder; an
absent or empty capture resets the banner silently, otherwise
`onContinueDictation` runs and a thrown error lands in the banner state. -/
def handleStopContinueS (st : SingleState) (stopRes : Option Blob)
    (procRes : Except Str (List Str)) (chatRes : Except Str Nat) :
    SingleState × ContStateS :=
  match stopRes with
  | some audioBlob =>
    if 0 < blobSize audioBlob then
      match handleContinueDictation st audioBlob procRes chatRes with
      | (st1, none) => (st1, ⟨.idle, none⟩)
      | (st1, some e) => (st1, ⟨.idle, some e⟩)
    else (st, ⟨.idle, none⟩)
  | none => (st, ⟨.idle, none⟩)

/-! ### The batch registry (`BatchProcessor`)

A batch's findings array may be written at an out-of-range index by
`handleUpdateFindingForBatch` (the source has no range guard there), which
in JavaScript extends the array with `undefined` holes; findings elements
are therefore `Option Str`. -/

inductive BatchStatus
  | idle
  | recording
  | paused
  | complete
  | processing
  | error
deriving DecidableEq

structure Batch where
  id : Str
  name : Str
  audioBlobs : List Blob
  findings : Option (List (Option Str))
  status : BatchStatus
  selectedModel : Str
  error : Option Str
  chat : Option Nat
  chatHistory : List ChatMessage
  isChatting : Bool
deriving DecidableEq

/-- Chat intro text over a possibly sparse findings array: JavaScript
`join` renders a hole as the empty string. -/
def chatIntroSparse (findings : List (Option Str)) (greeting : Str) : Str :=
  chatIntro (findings.map (fun o => o.getD [])) greeting

/-- JavaScript `arr[i] = x`: in range it replaces, out of range it extends
the array to length `i + 1`, leaving `undefined` holes in between. -/
def jsArrayWrite (l : List (Option α)) (i : Nat) (x : α) : List (Option α) :=
  if i < l.length then l.set i (some x)
  else l ++ List.replicate (i - l.length) none ++ [some x]

/-- `handleUpdateFindingForBatch`: unguarded write into the findings array
of the batch with the given id (when that batch has findings). -/
def handleUpdateFindingForBatch (bs : List Batch) (batchId : Str)
    (findingIndex : Nat) (newText : Str) : List Batch :=
  bs.map fun b =>
    if b.id = batchId then
      match b.findings with
      | some fs => { b with findings := some (jsArrayWrite fs findingIndex newText) }
      | none => b
    else b

/-- Eligibility test used by `handleProcessAll`: `complete` or `paused`,
at least one audio artifact, and no findings yet. -/
def eligibleForProcessing (b : Batch) : Bool :=
  (b.status == BatchStatus.complete || b.status == BatchStatus.paused) &&
    !b.audioBlobs.isEmpty && b.findings.isNone

/-- Outcome application for one batch inside `handleProcessAll`: the `try`
block covers both `processAudio` and `createChat`, so `out` is the joint
outcome; success stores findings and the fresh chat, failure stores the
error message and the `error` status. -/
def processResolve (out : Except Str (List Str × Nat)) (b : Batch) : Batch :=
  match out with
  | .ok (fs, chatSession) =>
    { b with
      status := .complete
      findings := some (fs.map some)
      chat := some chatSession
      chatHistory := [⟨.ai, chatIntro fs greetBatch⟩]
      isChatting := false }
  | .error e => { b with status := .error, error := some e }

/-- The first `setBatches` of `handleProcessAll`: every batch whose id
matches a selected batch is marked `processing`. -/
def markProcessing (bs : List Batch) : List Batch :=
  let batchesToProcess := bs.filter eligibleForProcessing
  bs.map fun b =>
    if batchesToProcess.any (fun p => p.id == b.id) then
      { b with status := .processing }
    else b

/-- `handleProcessAll`: select the eligible batches, mark them
`processing` in one state update, then fan out independent transcriptions
whose completions each rewrite only their own batch (keyed by id).
`outs` gives the outcome of the call issued for a given batch id. -/
def handleProcessAll (bs : List Batch)
    (outs : Str → Except Str (List Str × Nat)) : List Batch :=
  let batchesToProcess := bs.filter eligibleForProcessing
  if batchesToProcess.isEmpty then bs
  else
    batchesToProcess.foldl
      (fun acc batch =>
        if batch.audioBlobs.isEmpty then acc
        else acc.map fun b =>
          if b.id = batch.id then processResolve (outs batch.id) b else b)
      (markProcessing bs)

/-- `handleReprocessBatch`: mark the batch `processing` (clearing its error),
re-run transcription on its merged audio with its own model; on failure the
batch moves to `error` with its findings cleared to `null`. -/
def handleReprocessBatch (bs : List Batch) (batchId : Str)
    (procRes : Except Str (List Str)) (chatRes : Except Str Nat) :
    List Batch :=
  match bs.find? (fun b => b.id == batchId) with
  | none => bs
  | some batch =>
    if batch.audioBlobs.isEmpty then bs
    else
      let marked := bs.map fun b =>
        if b.id = batchId then { b with status := .processing, error := none }
        else b
      match procRes with
      | .ok fs =>
        match chatRes with
        | .ok chatSession =>
          marked.map fun b =>
            if b.id = batchId then
              { b with
                status := .complete
                findings := some (fs.map some)
                chat := some chatSession
                chatHistory := [⟨.ai, chatIntro fs greetBatch⟩]
                isChatting := false }
            else b
        | .error e =>
          marked.map fun b =>
            if b.id = batchId then
              { b with status := .error, error := some e, findings := none }
            else b
      | .error e =>
        marked.map fun b =>
          if b.id = batchId then
            { b with status := .error, error := some e, findings := none }
          else b

/-- The continue-dictation banner state of `BatchProcessor`. -/
structure BContState where
  batchId : Option Str
  status : ContStatus
  error : Option Str
deriving DecidableEq

/-- `handleStopContinue` (batch mode): all awaited steps complete before the
single `setBatches` that commits findings, audio and chat together, so any
failure leaves the registry untouched and lands in the banner state. -/
def handleStopContinueB (bs : List Batch) (cs : BContState)
    (stopRes : Option Blob) (procRes : Except Str (List Str))
    (chatRes : Except Str Nat) : List Batch × BContState :=
  match cs.batchId with
  | none => (bs, cs)
  | some batchId =>
    match stopRes with
    | some newAudioBlob =>
      if 0 < blobSize newAudioBlob then
        match bs.find? (fun b => b.id == batchId) with
        | none => (bs, ⟨some batchId, .idle, some batchNotFoundError⟩)
        | some batch =>
          match batch.findings with
          | none => (bs, ⟨some batchId, .idle, some batchNotFoundError⟩)
          | some fs =>
            match procRes with
            | .error e => (bs, ⟨some batchId, .idle, some e⟩)
            | .ok newFindings =>
              let updatedFindings := fs ++ newFindings.map some
              let updatedAudioBlobs := batch.audioBlobs ++ [newAudioBlob]
              match chatRes with
              | .error e => (bs, ⟨some batchId, .idle, some e⟩)
              | .ok chatSession =>
                (bs.map fun b =>
                  if b.id = batchId then
                    { b with
                      findings := some updatedFindings
                      audioBlobs := updatedAudioBlobs
                      chat := some chatSession
                      chatHistory :=
                        [⟨.ai, chatIntroSparse updatedFindings greetContinue⟩] }
                  else b,
                 ⟨none, .idle, none⟩)
      else (bs, ⟨none, .idle, none⟩)
    | none => (bs, ⟨none, .idle, none⟩)

/-- The interactive per-finding slots of `BatchProcessor`, keyed by
`(batchId, index)`. -/
structure BRDState where
  editingState : Option (Str × Nat)
  editingText : Str
  dictatingState : Option (Str × Nat)
  dictateEditingState : Option (Str × Nat)
  processingState : Option (Str × Nat)
  continuationError : Option (Str × Nat × Str)
deriving DecidableEq

/-- `handleStopDictation` (batch mode): mirrors the single-mode handler,
scoped to the captured `(batchId, index)` pair; a missing batch, missing
findings, or absent/empty audio is a silent no-op. -/
def handleStopDictationB (bs : List Batch) (rd : BRDState)
    (stopRes : Option Blob) (contRes : Except Str Str) :
    List Batch × BRDState :=
  match rd.dictatingState with
  | none => (bs, rd)
  | some (batchId, index) =>
    let rd1 := { rd with dictatingState := none }
    match bs.find? (fun b => b.id == batchId), stopRes with
    | some batch, some audioBlob =>
      match batch.findings with
      | some fs =>
        if 0 < blobSize audioBlob then
          match contRes with
          | .ok newText =>
            match fs.getD index none with
            | some existingText =>
              (handleUpdateFindingForBatch bs batchId index
                (appendContinuation existingText newText),
               { rd1 with processingState := none })
            | none =>
              (bs, { rd1 with
                processingState := none
                continuationError := some (batchId, index, undefinedTrimError) })
          | .error e =>
            (bs, { rd1 with
              processingState := none
              continuationError := some (batchId, index, e) })
        else (bs, rd1)
      | none => (bs, rd1)
    | _, _ => (bs, rd1)

/-! ### Selection and copy -/

/-- Plain-text payload of `copySelection` (single mode): the selected
indices sorted ascending; for each index a captured text snippet is used
verbatim when present and non-empty (JavaScript truthiness), otherwise the
full rendered finding; pieces joined by newlines. -/
def copySelectionPlain (findings : List Str)
    (selectionSnippets : Nat → Option Str) (indices : List Nat) : Str :=
  let sortedIndices := List.insertionSort (· ≤ ·) indices
  List.intercalate nlSep (sortedIndices.map fun i =>
    let snippet := (selectionSnippets i).getD []
    if snippet ≠ [] then snippet
    else renderFindingPlain (findings.getD i []))

/-- Plain-text payload of `copyBatchSelection`: scoped to one batch; `none`
when no copy happens (unknown batch, no findings, or empty selection). -/
def copyBatchSelectionPlain (bs : List Batch)
    (selectionSnippets : Str → Nat → Option Str) (batchId : Str)
    (selection : List Nat) : Option Str :=
  match bs.find? (fun b => b.id == batchId) with
  | none => none
  | some batch =>
    match batch.findings with
    | none => none
    | some fs =>
      if selection.isEmpty then none
      else
        some (copySelectionPlain (fs.map (fun o => o.getD []))
          (selectionSnippets batchId) selection)

/-! ### The batch registry as a transition system

State of `BatchProcessor` relevant to the recording life cycle: the batch
list, the id of the batch owning the main recorder, and the recorder itself
(`none` when idle, `some blob` when recording with the audio captured so
far). The interactive handlers are steps; asynchronous handlers that
suspend contribute one step per state update so that completions may
interleave. The `isBusy` flag is only set transiently inside a handler and
is always `false` between steps, so it does not appear in the state. -/

structure BPState where
  batches : List Batch
  activeBatchId : Option Str
  recorderBlob : Option Blob
  selectedModel : Str
deriving DecidableEq

/-- `addBatch`: a fresh batch appended with a generated id. -/
def addBatchF (s : BPState) (id : Str) : BPState :=
  { s with batches := s.batches ++
      [{ id := id
         name := ("Dictation #".data) ++ (toString (s.batches.length + 1)).data
         audioBlobs := []
         findings := none
         status := .idle
         selectedModel := s.selectedModel
         error := none
         chat := none
         chatHistory := []
         isChatting := false }] }

/-- `removeBatch` (after its confirmation dialog). -/
def removeBatchF (s : BPState) (id : Str) : BPState :=
  { s with batches := s.batches.filter (fun b => !(b.id == id)) }

/-- `clearAllBatches` (after its confirmation dialog). -/
def clearAllF (s : BPState) : BPState := { s with batches := [] }

/-- `handleRecordOrResume`: stop the main recorder first when it is serving
a different batch (committing that batch's audio and pausing it), then
start recording the target batch. -/
def recordOrResumeF (s : BPState) (targetId : Str) (newBlob : Blob) :
    BPState :=
  let captured : Option (Str × Blob) :=
    match s.recorderBlob, s.activeBatchId with
    | some blob, some prev =>
      if prev ≠ targetId then some (prev, blob) else none
    | _, _ => none
  let bs1 : List Batch :=
    match captured with
    | some (prev, blob) =>
      s.batches.map fun b =>
        if b.id = prev then
          { b with audioBlobs := b.audioBlobs ++ [blob], status := .paused }
        else b
    | none => s.batches
  { s with
    batches := bs1.map fun b =>
      if b.id = targetId then { b with status := .recording } else b
    activeBatchId := some targetId
    recorderBlob := some newBlob }

/-- `handlePause`: commit the captured audio and move the batch to
`paused`. -/
def pauseF (s : BPState) (batchId : Str) (blob : Blob) : BPState :=
  { s with
    batches := s.batches.map fun b =>
      if b.id = batchId then
        { b with audioBlobs := b.audioBlobs ++ [blob], status := .paused }
      else b
    activeBatchId := none
    recorderBlob := none }

/-- `handleStop`: commit the captured audio and move the batch to
`complete`. -/
def stopRecF (s : BPState) (batchId : Str) (blob : Blob) : BPState :=
  { s with
    batches := s.batches.map fun b =>
      if b.id = batchId then
        { b with audioBlobs := b.audioBlobs ++ [blob], status := .complete }
      else b
    activeBatchId := none
    recorderBlob := none }

/-- `handleFileSelect`: an uploaded file replaces the batch's audio and
marks it `complete`. -/
def fileSelectF (s : BPState) (batchId : Str) (file : Blob) : BPState :=
  { s with
    batches := s.batches.map fun b =>
      if b.id = batchId then
        { b with audioBlobs := [file], status := .complete, findings := none,
                 error := none }
      else b }

/-- The marking phase of `handleProcessAll` as a step. -/
def processAllMarkF (s : BPState) : BPState :=
  { s with batches := markProcessing s.batches }

/-- Completion of one fanned-out `handleProcessAll` transcription. -/
def processResolveF (s : BPState) (batchId : Str)
    (out : Except Str (List Str × Nat)) : BPState :=
  { s with batches := s.batches.map fun b =>
      if b.id = batchId then processResolve out b else b }

/-- The marking phase of `handleReprocessBatch`. -/
def reprocessMarkF (s : BPState) (batchId : Str) : BPState :=
  match s.batches.find? (fun b => b.id == batchId) with
  | none => s
  | some batch =>
    if batch.audioBlobs.isEmpty then s
    else
      { s with batches := s.batches.map fun b =>
          if b.id = batchId then
            { b with status := .processing, error := none }
          else b }

/-- Completion of a `handleReprocessBatch` call: success stores findings,
failure stores the error and clears findings. -/
def reprocessResolveF (s : BPState) (batchId : Str)
    (out : Except Str (List Str × Nat)) : BPState :=
  { s with batches := s.batches.map fun b =>
      if b.id = batchId then
        match out with
        | .ok (fs, chatSession) =>
          { b with
            status := .complete
            findings := some (fs.map some)
            chat := some chatSession
            chatHistory := [⟨.ai, chatIntro fs greetBatch⟩]
            isChatting := false }
        | .error e =>
          { b with status := .error, error := some e, findings := none }
      else b }

/-- The recorder-error effect: the active batch moves to `error`. -/
def recorderErrorF (s : BPState) (batchId : Str) (msg : Str) : BPState :=
  { s with
    batches := s.batches.map fun b =>
      if b.id = batchId then { b with status := .error, error := some msg }
      else b
    activeBatchId := none
    recorderBlob := none }

/-- The committing `setBatches` of a successful batch continue-dictation:
findings, audio and chat replaced together, status untouched. -/
def contApplyF (s : BPState) (batchId : Str)
    (updatedFindings : List (Option Str)) (updatedAudioBlobs : List Blob)
    (chatSession : Nat) : BPState :=
  { s with batches := s.batches.map fun b =>
      if b.id = batchId then
        { b with
          findings := some updatedFindings
          audioBlobs := updatedAudioBlobs
          chat := some chatSession
          chatHistory := [⟨.ai, chatIntroSparse updatedFindings greetContinue⟩] }
      else b }

/-- `updateBatchName`. -/
def updateNameF (s : BPState) (batchId : Str) (name : Str) : BPState :=
  { s with batches := s.batches.map fun b =>
      if b.id = batchId then { b with name := name } else b }

/-- `updateBatchModel`. -/
def updateModelF (s : BPState) (batchId : Str) (model : Str) : BPState :=
  { s with batches := s.batches.map fun b =>
      if b.id = batchId then { b with selectedModel := model } else b }

/-- One step of the batch registry. Generated ids are fresh
(`crypto.randomUUID`); `handlePause`/`handleStop` and the recorder-error
effect run only under the guards the handlers check. -/
inductive BStep : BPState → BPState → Prop
  | addBatch (s : BPState) (id : Str)
      (hfresh : id ∉ s.batches.map Batch.id) : BStep s (addBatchF s id)
  | removeBatch (s : BPState) (id : Str)
      (hrec : s.recorderBlob = none) : BStep s (removeBatchF s id)
  | clearAll (s : BPState)
      (hrec : s.recorderBlob = none) : BStep s (clearAllF s)
  | recordOrResume (s : BPState) (targetId : Str) (newBlob : Blob) :
      BStep s (recordOrResumeF s targetId newBlob)
  | pause (s : BPState) (id : Str) (blob : Blob)
      (hrec : s.recorderBlob = some blob)
      (hact : s.activeBatchId = some id) : BStep s (pauseF s id blob)
  | stopRec (s : BPState) (id : Str) (blob : Blob)
      (hrec : s.recorderBlob = some blob)
      (hact : s.activeBatchId = some id) : BStep s (stopRecF s id blob)
  | fileSelect (s : BPState) (id : Str) (file : Blob) :
      BStep s (fileSelectF s id file)
  | processAllMark (s : BPState) : BStep s (processAllMarkF s)
  | processDone (s : BPState) (id : Str)
      (out : Except Str (List Str × Nat)) : BStep s (processResolveF s id out)
  | reprocessMark (s : BPState) (id : Str) : BStep s (reprocessMarkF s id)
  | reprocessDone (s : BPState) (id : Str)
      (out : Except Str (List Str × Nat)) :
      BStep s (reprocessResolveF s id out)
  | recorderFail (s : BPState) (id : Str) (msg : Str)
      (hact : s.activeBatchId = some id) : BStep s (recorderErrorF s id msg)
  | continueDone (s : BPState) (id : Str) (fs : List (Option Str))
      (blobs : List Blob) (chatSession : Nat) :
      BStep s (contApplyF s id fs blobs chatSession)
  | updateFinding (s : BPState) (id : Str) (idx : Nat) (txt : Str) :
      BStep s { s with
        batches := handleUpdateFindingForBatch s.batches id idx txt }
  | updateName (s : BPState) (id : Str) (name : Str) :
      BStep s (updateNameF s id name)
  | updateModel (s : BPState) (id : Str) (model : Str) :
      BStep s (updateModelF s id model)

/-- The registry starts empty with no active recording. -/
def initBP (model : Str) : BPState := ⟨[], none, none, model⟩

/-- Reachability of a batch-registry state. -/
inductive ReachableBP : BPState → Prop
  | init (model : Str) : ReachableBP (initBP model)
  | step {s s' : BPState} : ReachableBP s → BStep s s' → ReachableBP s'

/-- The recording invariant: batch ids are distinct, and a batch can be
`recording` only while the main recorder is live and assigned to it. -/
def RecInv (s : BPState) : Prop :=
  (s.batches.map Batch.id).Nodup ∧
  ∀ b ∈ s.batches, b.status = .recording →
    s.recorderBlob.isSome = true ∧ s.activeBatchId = some b.id

/-! ### Theorems -/

/-- Skipping `k` characters is the same as splitting the dropped string. -/
theorem jsSplitA_eq_drop (sep : Str) : ∀ (s : Str) (k : Nat),
    jsSplitA sep s k = jsSplit sep (s.drop k) := by
  intro s
  induction s with
  | nil => intro k; cases k <;> rfl
  | cons c rest ih =>
    intro k
    cases k with
    | zero => rfl
    | succ k => simpa [jsSplitA] using ih k

/-- Unfolding equation of `jsSplit` on a non-empty string. -/
theorem jsSplit_cons (sep : Str) (c : Char) (rest : Str) :
    jsSplit sep (c :: rest) =
      if sep ≠ [] ∧ sep.isPrefixOf (c :: rest) then
        [] :: jsSplit sep ((c :: rest).drop sep.length)
      else
        match jsSplit sep rest with
        | [] => [[c]]
        | t :: ts => (c :: t) :: ts := by
  show jsSplitA sep (c :: rest) 0 = _
  rw [jsSplitA]
  by_cases h : sep ≠ [] ∧ sep.isPrefixOf (c :: rest)
  · have hne := h.1
    simp only [if_pos h]
    rw [jsSplitA_eq_drop]
    congr 1
    cases sep with
    | nil => exact absurd rfl hne
    | cons a l => simp [List.drop]
  · simp only [if_neg h]
    rfl

theorem jsSplit_nil (sep : Str) : jsSplit sep [] = [[]] := rfl

/-- `jsSplit` always returns at least one piece. -/
theorem jsSplit_ne_nil (sep s : Str) : jsSplit sep s ≠ [] := by
  cases s with
  | nil => simp [jsSplit_nil]
  | cons c rest =>
    rw [jsSplit_cons]
    by_cases h : sep ≠ [] ∧ sep.isPrefixOf (c :: rest)
    · simp [h]
    · simp only [h, if_false]
      cases jsSplit sep rest <;> simp

/-- Splitting a string in which the separator never occurs yields the whole
string as the unique piece. -/
theorem jsSplit_eq_single (sep : Str) : ∀ (s : Str), ¬ sep <:+: s →
    jsSplit sep s = [s] := by
  intro s
  induction s with
  | nil => intro _; rfl
  | cons c rest ih =>
    intro hinf
    have hpre : ¬ sep.isPrefixOf (c :: rest) = true := by
      intro hp
      exact hinf (List.isPrefixOf_iff_prefix.mp hp).isInfix
    rw [jsSplit_cons]
    have hcond : ¬ (sep ≠ [] ∧ sep.isPrefixOf (c :: rest)) := by
      intro ⟨_, hp⟩; exact hpre hp
    simp only [hcond, if_false]
    have hrest : ¬ sep <:+: rest :=
      fun h => hinf (h.trans (List.suffix_cons c rest).isInfix)
    rw [ih hrest]

theorem hashSep_eq : hashSep = ['#', '#', '#'] := rfl

/-- A member of `getLast?` is a member of the list. -/
theorem mem_of_getLast?_eq {l : List α} {a : α} (h : l.getLast? = some a) :
    a ∈ l := by
  obtain ⟨hne, heq⟩ := List.mem_getLast?_eq_getLast (by simpa using h)
  exact heq ▸ List.getLast_mem hne

/-- A non-whitespace final character survives `jsTrim`. -/
theorem jsTrim_ne_nil_of_getLast (s : Str) (c : Char)
    (hl : s.getLast? = some c) (hw : c.isWhitespace = false) :
    jsTrim s ≠ [] := by
  intro htr
  unfold jsTrim at htr
  rw [List.reverse_eq_nil_iff, List.dropWhile_eq_nil_iff] at htr
  have hall : ∀ x ∈ s.dropWhile Char.isWhitespace, x.isWhitespace = true := by
    intro x hx
    exact htr x (by simpa using hx)
  by_cases hnil : s.dropWhile Char.isWhitespace = []
  · rw [List.dropWhile_eq_nil_iff] at hnil
    exact absurd (hnil c (mem_of_getLast?_eq hl)) (by simp [hw])
  · have hsplit := List.takeWhile_append_dropWhile Char.isWhitespace s
    have hlast2 : (s.dropWhile Char.isWhitespace).getLast? = some c := by
      rw [← List.getLast?_append_of_ne_nil (s.takeWhile Char.isWhitespace) hnil,
        hsplit]
      exact hl
    exact absurd (hall c (mem_of_getLast?_eq hlast2)) (by simp [hw])

/-- If a non-empty list of hash marks is a suffix of `s` then `s` ends in a
hash mark. -/
theorem getLast_hash_of_suffix (s s1 s2 : Str) (h1 : s1 ≠ []) (h2 : s2 ≠ [])
    (heq : s1 ++ s2 = hashSep) (hsuf : s1 <:+ s) :
    s.getLast? = some '#' := by
  obtain ⟨pre, rfl⟩ := hsuf
  rw [hashSep_eq] at heq
  match s1, heq with
  | [a], heq =>
    have : a = '#' := by simpa using congrArg (List.headD · ' ') heq
    subst this
    exact List.getLast?_concat pre
  | [a, b], heq =>
    have ha : a = '#' ∧ b = '#' := by
      constructor
      · simpa using congrArg (List.headD · ' ') heq
      · simpa using congrArg (fun l => List.headD (List.drop 1 l) ' ') heq
    rw [ha.1, ha.2, show pre ++ ['#', '#'] = (pre ++ ['#']) ++ ['#'] by simp]
    exact List.getLast?_concat _
  | a :: b :: c :: l, heq =>
    exfalso
    simp only [List.cons_append, List.cons.injEq, List.append_eq_nil] at heq
    exact h2 heq.2.2.2.2

/-- The separator cannot start at the junction between a string that neither
contains `"###"` nor ends in `'#'` and an appended separator. -/
theorem not_hash_boundary (c : Char) (x t : Str)
    (hinf : ¬ hashSep <:+: (c :: x))
    (hlast : (c :: x).getLast? ≠ some '#') :
    ¬ hashSep.isPrefixOf ((c :: x) ++ hashSep ++ t) = true := by
  intro hp
  rw [List.isPrefixOf_iff_prefix] at hp
  match x with
  | [] =>
    rw [hashSep_eq] at hp
    simp only [List.cons_append, List.nil_append, List.cons_prefix_cons] at hp
    exact hlast (by simp [← hp.1])
  | [d] =>
    rw [hashSep_eq] at hp
    simp only [List.cons_append, List.nil_append, List.cons_prefix_cons] at hp
    exact hlast (by simp [← hp.2.1])
  | d :: e :: x' =>
    rw [hashSep_eq] at hp
    simp only [List.cons_append, List.cons_prefix_cons] at hp
    apply hinf
    apply List.IsPrefix.isInfix
    rw [hashSep_eq]
    exact List.cons_prefix_cons.mpr ⟨hp.1, List.cons_prefix_cons.mpr ⟨hp.2.1,
      List.cons_prefix_cons.mpr ⟨hp.2.2.1, List.nil_prefix⟩⟩⟩

/-- Splitting `x ++ "###" ++ t` peels off `x` as the first piece, provided
`x` neither contains the separator nor ends in a hash mark. -/
theorem jsSplit_boundary : ∀ (x t : Str), ¬ hashSep <:+: x →
    x.getLast? ≠ some '#' →
    jsSplit hashSep (x ++ hashSep ++ t) = x :: jsSplit hashSep t := by
  intro x
  induction x with
  | nil =>
    intro t _ _
    rw [List.nil_append, show hashSep ++ t = '#' :: ('#' :: '#' :: t) from rfl,
      jsSplit_cons]
    have hc : hashSep ≠ [] ∧
        hashSep.isPrefixOf ('#' :: '#' :: '#' :: t) = true := by
      refine ⟨by simp [hashSep_eq], ?_⟩
      rw [List.isPrefixOf_iff_prefix, hashSep_eq]
      exact List.prefix_append _ t
    rw [if_pos hc]
    simp [hashSep_eq]
  | cons c x ih =>
    intro t hinf hlast
    have hnp := not_hash_boundary c x t hinf hlast
    rw [List.cons_append, List.cons_append, jsSplit_cons]
    have hcond : ¬ (hashSep ≠ [] ∧
        hashSep.isPrefixOf (c :: (x ++ hashSep ++ t)) = true) := by
      intro ⟨_, hpp⟩
      exact hnp (by simpa using hpp)
    rw [if_neg hcond]
    have hinfx : ¬ hashSep <:+: x :=
      fun h => hinf (h.trans (List.suffix_cons c x).isInfix)
    have hlx : x.getLast? ≠ some '#' := by
      cases x with
      | nil => simp
      | cons d x' =>
        intro h
        exact hlast (by rw [List.getLast?_cons_cons]; simpa using h)
    rw [ih t hinfx hlx]

/-- Round trip of `"###"`-joined segment lists through `jsSplit`:
holds when no segment contains the separator and no segment except the
last ends in a hash mark. -/
theorem jsSplit_intercalate : ∀ (segs : List Str), segs ≠ [] →
    (∀ s ∈ segs, ¬ hashSep <:+: s) →
    (∀ s ∈ segs.dropLast, s.getLast? ≠ some '#') →
    jsSplit hashSep (List.intercalate hashSep segs) = segs := by
  intro segs
  induction segs with
  | nil => intro h; exact absurd rfl h
  | cons x rest ih =>
    intro _ hinf hlast
    cases rest with
    | nil =>
      rw [show List.intercalate hashSep [x] = x by
        simp [List.intercalate, List.intersperse]]
      exact jsSplit_eq_single hashSep x (hinf x (by simp))
    | cons y rest' =>
      rw [show List.intercalate hashSep (x :: y :: rest') =
          x ++ hashSep ++ List.intercalate hashSep (y :: rest') by
        simp [List.intercalate, List.intersperse]]
      rw [jsSplit_boundary x _ (hinf x (by simp))
        (hlast x (by rw [List.dropLast_cons₂]; simp))]
      congr 1
      refine ih (by simp) (fun s hs => hinf s (by simp [hs])) ?_
      intro s hs
      refine hlast s ?_
      rw [List.dropLast_cons₂]
      simp [hs]

/-- A prefix of an appended list either sits inside the first part or
extends the whole first part into the second. -/
theorem prefix_append_cases : ∀ (a : List α) (p b : List α), p <+: a ++ b →
    p <+: a ∨ ∃ p2, p = a ++ p2 ∧ p2 <+: b := by
  intro a
  induction a with
  | nil => intro p b h; exact Or.inr ⟨p, rfl, h⟩
  | cons x a' ih =>
    intro p b h
    cases p with
    | nil => exact Or.inl List.nil_prefix
    | cons y p' =>
      rw [List.cons_append, List.cons_prefix_cons] at h
      obtain ⟨rfl, h'⟩ := h
      rcases ih p' b h' with h1 | ⟨p2, rfl, h2⟩
      · exact Or.inl (List.cons_prefix_cons.mpr ⟨rfl, h1⟩)
      · exact Or.inr ⟨p2, by simp, h2⟩

/-- An infix of an appended list sits inside one part, or straddles the
junction as a non-trivial suffix/prefix pair. -/
theorem infix_append_cases : ∀ (a : List α) (sep b : List α),
    sep <:+: a ++ b →
    sep <:+: a ∨ sep <:+: b ∨
      ∃ s1 s2, sep = s1 ++ s2 ∧ s1 ≠ [] ∧ s2 ≠ [] ∧ s1 <:+ a ∧ s2 <+: b := by
  intro a
  induction a with
  | nil => intro sep b h; exact Or.inr (Or.inl (by simpa using h))
  | cons x a' ih =>
    intro sep b h
    rw [List.cons_append, List.infix_cons_iff] at h
    rcases h with h | h
    · rcases prefix_append_cases (x :: a') sep b (by simpa using h) with
        h1 | ⟨p2, rfl, h2⟩
      · exact Or.inl h1.isInfix
      · cases p2 with
        | nil => exact Or.inl (by simp)
        | cons z p2' =>
          exact Or.inr (Or.inr ⟨x :: a', z :: p2', rfl, by simp, by simp,
            List.suffix_refl _, h2⟩)
    · rcases ih sep b h with h1 | h1 | ⟨s1, s2, heq, hn1, hn2, hsuf, hpre⟩
      · exact Or.inl (h1.trans (List.suffix_cons x a').isInfix)
      · exact Or.inr (Or.inl h1)
      · exact Or.inr (Or.inr ⟨s1, s2, heq, hn1, hn2,
          hsuf.trans (List.suffix_cons x a'), hpre⟩)

/-- `jsTrim` only removes characters at the two ends. -/
theorem jsTrim_infix (s : Str) : jsTrim s <:+: s := by
  unfold jsTrim
  have h1 : s.dropWhile Char.isWhitespace <:+ s := List.dropWhile_suffix _
  have h2 : ((s.dropWhile Char.isWhitespace).reverse.dropWhile
      Char.isWhitespace).reverse <+: s.dropWhile Char.isWhitespace := by
    rw [← List.reverse_suffix]
    simpa using List.dropWhile_suffix (l := (s.dropWhile
      Char.isWhitespace).reverse) Char.isWhitespace
  exact h2.isInfix.trans h1.isInfix

/-- Every character of the separator is a hash mark. -/
theorem mem_hashSep_eq (z : Char) (hz : z ∈ hashSep) : z = '#' := by
  rw [hashSep_eq] at hz
  simpa using hz

theorem appendContinuation_extends (ex cont : Str) :
    ex <+: appendContinuation ex cont := by
  unfold appendContinuation
  exact ⟨_, (List.append_assoc ex _ _).symm⟩

/-- A nonempty suffix of a singleton is the singleton itself. -/
theorem suffix_singleton_eq {a : α} {s : List α} (hn : s ≠ [])
    (h : s <:+ [a]) : s = [a] := by
  obtain ⟨pre, hpre⟩ := h
  cases pre with
  | nil => simpa using hpre
  | cons b pre' =>
    exfalso
    rw [List.cons_append] at hpre
    injection hpre with h1 h2
    exact hn (List.append_eq_nil.mp h2).2

/-- The appended finding never contains the separator when neither the
existing text nor the trimmed continuation does. -/
theorem appendContinuation_no_hash (ex cont : Str)
    (hex : ¬ hashSep <:+: ex) (hc : ¬ hashSep <:+: jsTrim cont) :
    ¬ hashSep <:+: appendContinuation ex cont := by
  intro hbad
  unfold appendContinuation at hbad
  by_cases hcond : jsTrim ex ≠ [] ∧ ex.getLast? ≠ some ' '
  · rw [if_pos hcond, List.append_assoc] at hbad
    rcases infix_append_cases ex hashSep ([' '] ++ jsTrim cont) hbad with
      h | h | ⟨s1, s2, heq, hn1, hn2, hsuf, hpre⟩
    · exact hex h
    · rcases infix_append_cases [' '] hashSep (jsTrim cont) h with
        h1 | h1 | ⟨s1, s2, heq, hn1, hn2, hsuf, hpre⟩
      · have := h1.length_le
        rw [hashSep_eq] at this
        simp at this
      · exact hc h1
      · have hs1 := suffix_singleton_eq hn1 hsuf
        rw [hs1] at heq
        have hh := congrArg (List.headD · '?') heq
        rw [hashSep_eq] at hh
        simp at hh
    · obtain ⟨z, s2', rfl⟩ := List.exists_cons_of_ne_nil hn2
      have hz1 : z = ' ' := by
        rcases hpre with ⟨rest, hrest⟩
        rw [List.cons_append] at hrest
        have hh := congrArg (List.headD · '?') hrest
        simp at hh
        exact hh
      have hz2 : z = '#' :=
        mem_hashSep_eq z (heq ▸ List.mem_append_right s1 (by simp))
      rw [hz1] at hz2
      exact absurd hz2 (by decide)
  · rw [if_neg hcond] at hbad
    simp only [List.append_nil] at hbad
    rcases infix_append_cases ex hashSep (jsTrim cont) hbad with
      h | h | ⟨s1, s2, heq, hn1, hn2, hsuf, hpre⟩
    · exact hex h
    · exact hc h
    · have hlast := getLast_hash_of_suffix ex s1 s2 hn1 hn2 heq.symm hsuf
      rcases Decidable.not_and_iff_or_not.mp hcond with h1 | h1
      · exact h1 (jsTrim_ne_nil_of_getLast ex '#' hlast (by decide))
      · rw [Decidable.not_not] at h1
        rw [h1] at hlast
        exact absurd hlast (by decide)

/-- Appending to a `"###"`-free finding yields an unstructured parse. -/
theorem appendContinuation_unstructured (ex cont : Str)
    (hex : ¬ hashSep <:+: ex) (hc : ¬ hashSep <:+: jsTrim cont) :
    parseStructuredFinding (appendContinuation ex cont) =
      { isStructured := false, title := appendContinuation ex cont,
        points := [] } := by
  unfold parseStructuredFinding
  rw [jsSplit_eq_single hashSep _ (appendContinuation_no_hash ex cont hex hc)]
  simp

/-! ### Preservation of the recording invariant -/

/-- Mapping an id-preserving function over the batches keeps the ids. -/
theorem nodup_ids_map {bs : List Batch} (f : Batch → Batch)
    (hid : ∀ b, (f b).id = b.id) (hnd : (bs.map Batch.id).Nodup) :
    ((bs.map f).map Batch.id).Nodup := by
  rw [List.map_map]
  have hcg : bs.map (Batch.id ∘ f) = bs.map Batch.id :=
    List.map_congr_left (fun b _ => hid b)
  rw [hcg]
  exact hnd

/-- A batches-only update through an id-preserving map that never
introduces the `recording` status preserves the invariant. -/
theorem recInv_map {s : BPState} (f : Batch → Batch)
    (hid : ∀ b, (f b).id = b.id)
    (hst : ∀ b, (f b).status = .recording → b.status = .recording)
    (hinv : RecInv s) :
    RecInv { s with batches := s.batches.map f } := by
  obtain ⟨hnd, hrec⟩ := hinv
  refine ⟨nodup_ids_map f hid hnd, ?_⟩
  intro b' hb' hst'
  obtain ⟨b, hb, rfl⟩ := List.mem_map.mp hb'
  obtain ⟨h1, h2⟩ := hrec b hb (hst b hst')
  exact ⟨h1, by rw [hid b]; exact h2⟩

/-- A step that stops the recorder and rewrites only the active batch to a
non-`recording` status preserves the invariant. -/
theorem recInv_clearRecorder {s : BPState} (id : Str) (upd : Batch → Batch)
    (ha : s.activeBatchId = some id)
    (hid : ∀ b, (upd b).id = b.id)
    (hupd : ∀ b, b.id ≠ id → upd b = b)
    (hupd2 : ∀ b, b.id = id → (upd b).status ≠ .recording)
    (hinv : RecInv s) :
    RecInv { s with
      batches := s.batches.map upd
      activeBatchId := none
      recorderBlob := none } := by
  obtain ⟨hnd, hrec⟩ := hinv
  refine ⟨nodup_ids_map upd hid hnd, ?_⟩
  intro b' hb' hst'
  exfalso
  obtain ⟨b, hb, rfl⟩ := List.mem_map.mp hb'
  by_cases hbt : b.id = id
  · exact hupd2 b hbt hst'
  · rw [hupd b hbt] at hst'
    have h2 := (hrec b hb hst').2
    rw [ha] at h2
    exact hbt (Option.some_injective _ h2).symm

/-- `recordOrResumeF` preserves the invariant: afterwards only batches with
the target id are recording. -/
theorem recInv_recordOrResume (s : BPState) (targetId : Str) (newBlob : Blob)
    (hinv : RecInv s) : RecInv (recordOrResumeF s targetId newBlob) := by
  obtain ⟨hnd, hrec⟩ := hinv
  unfold recordOrResumeF
  rcases hrb : s.recorderBlob with - | blob <;>
    rcases hab : s.activeBatchId with - | prev
  -- the three no-capture cases, then the capture decision
  · dsimp only
    refine ⟨nodup_ids_map _ (fun b => by by_cases hb : b.id = targetId <;>
      simp [hb]) hnd, ?_⟩
    intro b' hb' hst'
    obtain ⟨b, hb, rfl⟩ := List.mem_map.mp hb'
    by_cases hbt : b.id = targetId
    · rw [if_pos hbt]
      exact ⟨rfl, by simp [hbt]⟩
    · rw [if_neg hbt] at hst' ⊢
      exfalso
      have h1 := (hrec b hb hst').1
      rw [hrb] at h1
      exact Bool.false_ne_true h1
  · dsimp only
    refine ⟨nodup_ids_map _ (fun b => by by_cases hb : b.id = targetId <;>
      simp [hb]) hnd, ?_⟩
    intro b' hb' hst'
    obtain ⟨b, hb, rfl⟩ := List.mem_map.mp hb'
    by_cases hbt : b.id = targetId
    · rw [if_pos hbt]
      exact ⟨rfl, by simp [hbt]⟩
    · rw [if_neg hbt] at hst' ⊢
      exfalso
      have h1 := (hrec b hb hst').1
      rw [hrb] at h1
      exact Bool.false_ne_true h1
  · dsimp only
    refine ⟨nodup_ids_map _ (fun b => by by_cases hb : b.id = targetId <;>
      simp [hb]) hnd, ?_⟩
    intro b' hb' hst'
    obtain ⟨b, hb, rfl⟩ := List.mem_map.mp hb'
    by_cases hbt : b.id = targetId
    · rw [if_pos hbt]
      exact ⟨rfl, by simp [hbt]⟩
    · rw [if_neg hbt] at hst' ⊢
      exfalso
      have h2 := (hrec b hb hst').2
      rw [hab] at h2
      exact Option.noConfusion h2
  · by_cases hpt : prev ≠ targetId
    · -- a different batch is recording: capture and pause it first
      dsimp only
      rw [if_pos hpt]
      dsimp only
      refine ⟨?_, ?_⟩
      · refine nodup_ids_map _ (fun b => by by_cases hb : b.id = targetId <;>
          simp [hb]) ?_
        exact nodup_ids_map _ (fun b => by by_cases hb : b.id = prev <;>
          simp [hb]) hnd
      · intro b' hb' hst'
        obtain ⟨b1, hb1, rfl⟩ := List.mem_map.mp hb'
        by_cases hbt : b1.id = targetId
        · rw [if_pos hbt]
          exact ⟨rfl, by simp [hbt]⟩
        · rw [if_neg hbt] at hst'
          exfalso
          obtain ⟨b0, hb0, rfl⟩ := List.mem_map.mp hb1
          by_cases hbp : b0.id = prev
          · rw [if_pos hbp] at hst'
            simp at hst'
          · rw [if_neg hbp] at hst'
            have h2 := (hrec b0 hb0 hst').2
            rw [hab] at h2
            exact hbp (Option.some_injective _ h2).symm
    · -- re-recording the already active batch: no capture
      dsimp only
      rw [if_neg hpt]
      dsimp only
      rw [Decidable.not_not] at hpt
      refine ⟨nodup_ids_map _ (fun b => by by_cases hb : b.id = targetId <;>
        simp [hb]) hnd, ?_⟩
      intro b' hb' hst'
      obtain ⟨b, hb, rfl⟩ := List.mem_map.mp hb'
      by_cases hbt : b.id = targetId
      · rw [if_pos hbt]
        exact ⟨rfl, by simp [hbt]⟩
      · rw [if_neg hbt] at hst' ⊢
        exfalso
        have h2 := (hrec b hb hst').2
        rw [hab] at h2
        exact hbt ((Option.some_injective _ h2.symm) ▸ hpt)

/-- Every step of the batch registry preserves the recording invariant. -/
theorem recInv_step {s s' : BPState} (h : BStep s s') (hinv : RecInv s) :
    RecInv s' := by
  obtain ⟨hnd, hrec⟩ := hinv
  cases h with
  | addBatch id hfresh =>
    constructor
    · show ((s.batches ++ [_]).map Batch.id).Nodup
      rw [List.map_append]
      refine List.Nodup.append hnd (by simp) ?_
      intro a ha hb
      simp only [List.map_cons, List.map_nil, List.mem_singleton] at hb
      exact hfresh (hb ▸ ha)
    · intro b hb hbst
      rcases List.mem_append.mp hb with hb | hb
      · exact hrec b hb hbst
      · simp only [List.mem_singleton] at hb
        rw [hb] at hbst
        simp at hbst
  | removeBatch id hr =>
    constructor
    · show ((s.batches.filter _).map Batch.id).Nodup
      exact ((List.filter_sublist s.batches).map Batch.id).nodup hnd
    · intro b hb hbst
      exfalso
      have hbm := List.mem_of_mem_filter hb
      have h1 := (hrec b hbm hbst).1
      rw [hr] at h1
      exact Bool.false_ne_true h1
  | clearAll hr =>
    exact ⟨by simp [clearAllF], by intro b hb; simp [clearAllF] at hb⟩
  | recordOrResume targetId newBlob =>
    exact recInv_recordOrResume s targetId newBlob ⟨hnd, hrec⟩
  | pause id blob hr ha =>
    exact recInv_clearRecorder id _ ha
      (fun b => by by_cases hb : b.id = id <;> simp [hb])
      (fun b hb => by simp [hb])
      (fun b hb => by simp [hb]) ⟨hnd, hrec⟩
  | stopRec id blob hr ha =>
    exact recInv_clearRecorder id _ ha
      (fun b => by by_cases hb : b.id = id <;> simp [hb])
      (fun b hb => by simp [hb])
      (fun b hb => by simp [hb]) ⟨hnd, hrec⟩
  | recorderFail id msg ha =>
    exact recInv_clearRecorder id _ ha
      (fun b => by by_cases hb : b.id = id <;> simp [hb])
      (fun b hb => by simp [hb])
      (fun b hb => by simp [hb]) ⟨hnd, hrec⟩
  | fileSelect id file =>
    exact recInv_map _
      (fun b => by by_cases hb : b.id = id <;> simp [hb])
      (fun b => by by_cases hb : b.id = id <;> simp [hb]) ⟨hnd, hrec⟩
  | processAllMark =>
    refine recInv_map _ (fun b => ?_) (fun b => ?_) ⟨hnd, hrec⟩ <;>
      by_cases hb : (s.batches.filter eligibleForProcessing).any
        (fun p => p.id == b.id) = true <;>
      simp [markProcessing, hb]
  | processDone id out =>
    refine recInv_map _ (fun b => ?_) (fun b => ?_) ⟨hnd, hrec⟩ <;>
      by_cases hb : b.id = id <;> cases out <;>
      simp [processResolve, hb]
  | reprocessMark id =>
    unfold reprocessMarkF
    rcases hf : s.batches.find? (fun b => b.id == id) with - | batch <;>
      rw [hf]
    · exact ⟨hnd, hrec⟩
    · dsimp only
      by_cases hae : batch.audioBlobs.isEmpty = true
      · rw [if_pos hae]
        exact ⟨hnd, hrec⟩
      · rw [if_neg hae]
        exact recInv_map _
          (fun b => by by_cases hb : b.id = id <;> simp [hb])
          (fun b => by by_cases hb : b.id = id <;> simp [hb]) ⟨hnd, hrec⟩
  | reprocessDone id out =>
    refine recInv_map _ (fun b => ?_) (fun b => ?_) ⟨hnd, hrec⟩ <;>
      by_cases hb : b.id = id <;> cases out <;>
      simp [hb]
  | continueDone id fs blobs chatSession =>
    refine recInv_map _ (fun b => ?_) (fun b => ?_) ⟨hnd, hrec⟩ <;>
      by_cases hb : b.id = id <;> simp [hb]
  | updateFinding id idx txt =>
    refine recInv_map _ (fun b => ?_) (fun b => ?_) ⟨hnd, hrec⟩ <;>
      by_cases hb : b.id = id <;> cases b.findings <;>
      simp [handleUpdateFindingForBatch, hb]
  | updateName id name =>
    refine recInv_map _ (fun b => ?_) (fun b => ?_) ⟨hnd, hrec⟩ <;>
      by_cases hb : b.id = id <;> simp [hb]
  | updateModel id model =>
    refine recInv_map _ (fun b => ?_) (fun b => ?_) ⟨hnd, hrec⟩ <;>
      by_cases hb : b.id = id <;> simp [hb]

/-- The recording invariant holds in every reachable registry state. -/
theorem recInv_reachable {s : BPState} (h : ReachableBP s) : RecInv s := by
  induction h with
  | init model => exact ⟨by simp [initBP], by intro b hb; simp [initBP] at hb⟩
  | step hs hstep ih => exact recInv_step hstep ih

/-! ### `handleProcessAll` as an independent per-batch map -/

theorem processResolve_id (o : Except Str (List Str × Nat)) (b : Batch) :
    (processResolve o b).id = b.id := by
  cases o with
  | ok v => rcases v with ⟨fs, ch⟩; rfl
  | error e => rfl

/-- Resolving a batch that was just marked `processing` gives the same
result as resolving the original batch: the status is overwritten. -/
theorem processResolve_mark (o : Except Str (List Str × Nat)) (b : Batch) :
    processResolve o { b with status := .processing } = processResolve o b := by
  cases o with
  | ok v => rcases v with ⟨fs, ch⟩; rfl
  | error e => rfl

/-- The defensive zero-artifact guard inside the fan-out loop never fires
for the selected batches. -/
theorem foldl_skip_eq (outs : Str → Except Str (List Str × Nat)) :
    ∀ (sel : List Batch), (∀ p ∈ sel, p.audioBlobs.isEmpty = false) →
    ∀ (bs : List Batch),
    sel.foldl
      (fun acc batch =>
        if batch.audioBlobs.isEmpty then acc
        else acc.map fun b =>
          if b.id = batch.id then processResolve (outs batch.id) b else b)
      bs =
    sel.foldl
      (fun acc batch =>
        acc.map fun b =>
          if b.id = batch.id then processResolve (outs batch.id) b else b)
      bs := by
  intro sel
  induction sel with
  | nil => intro _ bs; rfl
  | cons p ps ih =>
    intro hsel bs
    simp only [List.foldl_cons, hsel p (by simp), Bool.false_eq_true,
      if_false]
    exact ih (fun q hq => hsel q (by simp [hq])) _

/-- A fold of elementwise maps is the map of the per-element folds. -/
theorem foldl_map_comm {α β : Type} (g : β → α → α) :
    ∀ (sel : List β) (bs : List α),
    sel.foldl (fun acc p => acc.map (g p)) bs =
      bs.map (fun b => sel.foldl (fun x p => g p x) b) := by
  intro sel
  induction sel with
  | nil => intro bs; simp
  | cons p ps ih =>
    intro bs
    simp only [List.foldl_cons]
    rw [ih (bs.map (g p)), List.map_map]
    rfl

/-- A batch whose id never occurs in the selection is untouched by the
completion fold. -/
theorem foldl_resolve_skip (outs : Str → Except Str (List Str × Nat)) :
    ∀ (sel : List Batch) (x : Batch), (∀ p ∈ sel, p.id ≠ x.id) →
    sel.foldl
      (fun y p => if y.id = p.id then processResolve (outs p.id) y else y)
      x = x := by
  intro sel
  induction sel with
  | nil => intro x _; rfl
  | cons p ps ih =>
    intro x hx
    simp only [List.foldl_cons]
    rw [if_neg (fun h => hx p (by simp) h.symm)]
    exact ih x (fun q hq => hx q (by simp [hq]))

/-- A batch whose id occurs exactly once in the selection receives exactly
its own outcome. -/
theorem foldl_resolve_hit (outs : Str → Except Str (List Str × Nat))
    (s1 s2 : List Batch) (b : Batch)
    (h1 : ∀ p ∈ s1, p.id ≠ b.id) (h2 : ∀ p ∈ s2, p.id ≠ b.id)
    (x : Batch) (hxid : x.id = b.id) :
    (s1 ++ b :: s2).foldl
      (fun y p => if y.id = p.id then processResolve (outs p.id) y else y)
      x = processResolve (outs b.id) x := by
  rw [List.foldl_append]
  rw [foldl_resolve_skip outs s1 x (fun p hp => hxid ▸ h1 p hp)]
  simp only [List.foldl_cons]
  rw [if_pos hxid]
  refine foldl_resolve_skip outs s2 _ ?_
  intro p hp
  rw [processResolve_id, hxid]
  exact h2 p hp

/-- Membership in the selection is equivalent to eligibility when ids are
distinct. -/
theorem mark_any_iff (bs : List Batch)
    (hnd : (bs.map Batch.id).Nodup) (b : Batch) (hb : b ∈ bs) :
    (bs.filter eligibleForProcessing).any (fun p => p.id == b.id) =
      eligibleForProcessing b := by
  by_cases he : eligibleForProcessing b = true
  · rw [he]
    exact List.any_eq_true.mpr ⟨b, List.mem_filter.mpr ⟨hb, he⟩, by simp⟩
  · rw [Bool.eq_false_iff.mpr he, List.any_eq_false]
    intro p hp
    obtain ⟨hpbs, hpe⟩ := List.mem_filter.mp hp
    intro hpb
    rw [beq_iff_eq] at hpb
    have : p = b := List.inj_on_of_nodup_map hnd hpbs hb hpb
    exact he (this ▸ hpe)

/-- `markProcessing` marks exactly the eligible batches. -/
theorem markProcessing_eq (bs : List Batch)
    (hnd : (bs.map Batch.id).Nodup) :
    markProcessing bs = bs.map (fun b =>
      if eligibleForProcessing b = true then { b with status := .processing }
      else b) := by
  unfold markProcessing
  refine List.map_congr_left ?_
  intro b hb
  rw [mark_any_iff bs hnd b hb]

/-- In a registry with distinct ids, `handleProcessAll` applies each
selected batch's own outcome to that batch alone and leaves every other
batch unchanged. -/
theorem handleProcessAll_eq (bs : List Batch)
    (outs : Str → Except Str (List Str × Nat))
    (hnd : (bs.map Batch.id).Nodup) :
    handleProcessAll bs outs = bs.map (fun b =>
      if eligibleForProcessing b = true then processResolve (outs b.id) b
      else b) := by
  unfold handleProcessAll
  have hsubnd : ((bs.filter eligibleForProcessing).map Batch.id).Nodup :=
    ((List.filter_sublist bs).map Batch.id).nodup hnd
  by_cases hempty : (bs.filter eligibleForProcessing).isEmpty = true
  · rw [if_pos hempty]
    rw [List.isEmpty_iff] at hempty
    have hnone : ∀ b ∈ bs, eligibleForProcessing b = false := by
      intro b hb
      by_contra hcon
      have : b ∈ bs.filter eligibleForProcessing :=
        List.mem_filter.mpr ⟨hb, Bool.of_not_eq_false hcon⟩
      rw [hempty] at this
      simp at this
    have : bs.map (fun b =>
        if eligibleForProcessing b = true then processResolve (outs b.id) b
        else b) = bs.map (fun b => b) := by
      refine List.map_congr_left ?_
      intro b hb
      rw [hnone b hb]
      simp
    rw [this, List.map_id']
  · rw [if_neg hempty]
    have hne : ∀ p ∈ bs.filter eligibleForProcessing,
        p.audioBlobs.isEmpty = false := by
      intro p hp
      have hpe := (List.mem_filter.mp hp).2
      unfold eligibleForProcessing at hpe
      simp only [Bool.and_eq_true] at hpe
      simpa using hpe.1.2
    rw [foldl_skip_eq outs _ hne, foldl_map_comm, markProcessing_eq bs hnd,
      List.map_map]
    refine List.map_congr_left ?_
    intro b hb
    simp only [Function.comp]
    by_cases he : eligibleForProcessing b = true
    · rw [he, if_pos rfl]
      have hbsel : b ∈ bs.filter eligibleForProcessing :=
        List.mem_filter.mpr ⟨hb, he⟩
      obtain ⟨s1, s2, hdecomp⟩ := List.append_of_mem hbsel
      rw [hdecomp] at hsubnd ⊢
      rw [List.map_append, List.map_cons] at hsubnd
      have hmid := List.nodup_append.mp hsubnd
      have h2 : ∀ p ∈ s2, p.id ≠ b.id := by
        intro p hp hpb
        have hbn := (List.nodup_cons.mp hmid.2.1).1
        exact hbn (hpb ▸ List.mem_map_of_mem Batch.id hp)
      have h1 : ∀ p ∈ s1, p.id ≠ b.id := by
        intro p hp hpb
        have := hmid.2.2 (List.mem_map_of_mem Batch.id hp)
        exact this (by simp [hpb])
      rw [foldl_resolve_hit outs s1 s2 b h1 h2 _ (by simp)]
      exact processResolve_mark (outs b.id) b
    · rw [Bool.eq_false_iff.mpr he, if_neg (by simp)]
      refine foldl_resolve_skip outs _ b ?_
      intro p hp hpb
      obtain ⟨hpbs, hpe⟩ := List.mem_filter.mp hp
      have : p = b := List.inj_on_of_nodup_map hnd hpbs hb hpb
      exact he (this ▸ hpe)

theorem intercalate_single (sep x : Str) : List.intercalate sep [x] = x := by
  simp [List.intercalate, List.intersperse]

/-! ### Claims -/

/-- C2 (counterexample): the stated round trip fails on the segment list
`["ab#", "c"]`, which satisfies every stated hypothesis — length 2, no
blank segment, no segment containing `"###"` — yet serializing produces
`"ab####c"`, in which the first separator occurrence starts one character
early, so parsing returns title `"ab"` and sub-point `"#c"`. -/
theorem claim_C2_counterexample :
    2 ≤ [("ab#".data : Str), ("c".data)].length ∧
    jsTrim ("ab#".data) ≠ [] ∧ jsTrim ("c".data) ≠ [] ∧
    ¬ hashSep <:+: ("ab#".data) ∧ ¬ hashSep <:+: ("c".data) ∧
    serializeFinding [("ab#".data), ("c".data)] = ("ab####c".data) ∧
    parseStructuredFinding (serializeFinding [("ab#".data), ("c".data)]) ≠
      { isStructured := true, title := ("ab#".data),
        points := [("c".data)] } := by
  decide

/-- C2 (amended): serialize-then-parse reproduces a segment list of length
at least two with no blank entries and none containing `"###"`, under the
additional necessary hypothesis that no segment before the last ends in
the character `'#'` (otherwise the join may create a separator occurrence
straddling a segment boundary). -/
theorem claim_C2_amended (segs : List Str)
    (hlen : 2 ≤ segs.length)
    (hblank : ∀ s ∈ segs, jsTrim s ≠ [])
    (hsep : ∀ s ∈ segs, ¬ hashSep <:+: s)
    (hlastc : ∀ s ∈ segs.dropLast, s.getLast? ≠ some '#') :
    parseStructuredFinding (serializeFinding segs) =
      { isStructured := true, title := segs.headD [],
        points := segs.tail } := by
  obtain ⟨x, rest, rfl⟩ : ∃ x rest, segs = x :: rest := by
    cases segs with
    | nil => simp at hlen
    | cons x rest => exact ⟨x, rest, rfl⟩
  have hfilter : ∀ (l : List Str), (∀ s ∈ l, jsTrim s ≠ []) →
      l.filter (fun s => jsTrim s ≠ []) = l := by
    intro l hl
    exact List.filter_eq_self.mpr (fun a ha => by simp [hl a ha])
  unfold serializeFinding
  rw [hfilter _ hblank]
  unfold parseStructuredFinding
  rw [jsSplit_intercalate (x :: rest) (by simp) hsep hlastc]
  rw [if_pos ⟨by simpa using hlen, by simpa using hblank x (by simp)⟩]
  simp only [List.headD_cons, List.drop_one, List.tail_cons]
  refine congrArg _ ?_
  exact hfilter rest (fun s hs => hblank s (by simp [hs]))

/-- C2 (witness): the amended round trip at `["Liver", "normal size"]`. -/
theorem claim_C2_witness :
    parseStructuredFinding
        (serializeFinding [("Liver".data), ("normal size".data)]) =
      { isStructured := true, title := ("Liver".data),
        points := [("normal size".data)] } :=
  claim_C2_amended [("Liver".data), ("normal size".data)]
    (by decide) (by decide) (by decide) (by decide)

/-- C3 (counterexample): the claim exempts an existing text that "ends in
whitespace" from the space separator, but the source only checks for a
trailing space character: with existing text `"abc\t"` (ending in the
whitespace character tab) the code still inserts a space. -/
theorem claim_C3_counterexample :
    ("abc\t".data : Str).getLast? = some '\t' ∧
    ('\t').isWhitespace = true ∧
    appendContinuation ("abc\t".data) ("x".data) = ("abc\t x".data) ∧
    ("abc\t x".data : Str) ≠ ("abc\t".data) ++ ("x".data) := by
  decide

/-- C3 (amended): the appended finding is exactly the existing text,
followed by a single space separator unless the existing text is blank or
already ends in a space character (not any whitespace), followed by the
trimmed continuation; the existing text is always a prefix of the result;
and when neither the existing text nor the trimmed continuation contains
`"###"`, the result parses as unstructured. -/
theorem claim_C3_amended (ex cont : Str) :
    ex <+: appendContinuation ex cont ∧
    (jsTrim ex = [] ∨ ex.getLast? = some ' ' →
      appendContinuation ex cont = ex ++ jsTrim cont) ∧
    (jsTrim ex ≠ [] → ex.getLast? ≠ some ' ' →
      appendContinuation ex cont = ex ++ [' '] ++ jsTrim cont) ∧
    (¬ hashSep <:+: ex → ¬ hashSep <:+: jsTrim cont →
      (parseStructuredFinding (appendContinuation ex cont)).isStructured
        = false) := by
  refine ⟨appendContinuation_extends ex cont, ?_, ?_, ?_⟩
  · intro h
    unfold appendContinuation
    rw [if_neg (by
      intro ⟨h1, h2⟩
      rcases h with h | h
      · exact h1 h
      · exact h2 h)]
    simp
  · intro h1 h2
    unfold appendContinuation
    rw [if_pos ⟨h1, h2⟩]
  · intro h1 h2
    rw [appendContinuation_unstructured ex cont h1 h2]

/-- C3 (witness): appending `" b "` to `"a"` inserts one space and keeps
the result unstructured. -/
theorem claim_C3_witness :
    ("a".data : Str) <+: appendContinuation ("a".data) (" b ".data) ∧
    appendContinuation ("a".data) (" b ".data) =
      ("a".data) ++ [' '] ++ jsTrim (" b ".data) ∧
    (parseStructuredFinding
      (appendContinuation ("a".data) (" b ".data))).isStructured = false := by
  have h := claim_C3_amended ("a".data) (" b ".data)
  exact ⟨h.1, h.2.2.1 (by decide) (by decide),
    h.2.2.2 (by decide) (by decide)⟩

/-- C1 (counterexample): in single mode, when `processAudio` succeeds but
the subsequent `createChat` throws, the continue-dictation handler has
already committed the appended findings and the merged audio before the
error propagates: given a session with 3 findings, the failed operation
leaves 4. -/
theorem claim_C1_counterexample :
    (handleContinueDictation
      { status := .success
        findings := [("f1".data), ("f2".data), ("f3".data)]
        error := none
        audioBlob := some ⟨[1, 2, 3], ("audio/webm".data)⟩
        chat := some 0
        chatHistory := [⟨.ai, ("h".data)⟩]
        selectedModel := defaultModel }
      ⟨[4], ("audio/webm".data)⟩
      (.ok [("new".data)]) (.error ("boom".data))).2 =
        some ("boom".data) ∧
    (handleContinueDictation
      { status := .success
        findings := [("f1".data), ("f2".data), ("f3".data)]
        error := none
        audioBlob := some ⟨[1, 2, 3], ("audio/webm".data)⟩
        chat := some 0
        chatHistory := [⟨.ai, ("h".data)⟩]
        selectedModel := defaultModel }
      ⟨[4], ("audio/webm".data)⟩
      (.ok [("new".data)]) (.error ("boom".data))).1.findings =
        [("f1".data), ("f2".data), ("f3".data), ("new".data)] ∧
    [("f1".data : Str), ("f2".data), ("f3".data), ("new".data)] ≠
      [("f1".data : Str), ("f2".data), ("f3".data)] ∧
    (handleContinueDictation
      { status := .success
        findings := [("f1".data), ("f2".data), ("f3".data)]
        error := none
        audioBlob := some ⟨[1, 2, 3], ("audio/webm".data)⟩
        chat := some 0
        chatHistory := [⟨.ai, ("h".data)⟩]
        selectedModel := defaultModel }
      ⟨[4], ("audio/webm".data)⟩
      (.ok [("new".data)]) (.error ("boom".data))).1.audioBlob =
        some ⟨[1, 2, 3, 4], ("audio/webm".data)⟩ := by
  decide

/-- C1 (amended): a failing transcription call leaves the single-mode
session completely unchanged and rethrows; continue-dictation never
touches the session's status or error fields or, on failure, its
conversation; but a `createChat` failure after a successful transcription
leaves the appended findings and merged audio committed while still
rethrowing. In batch mode every failing step leaves the registry
untouched and lands the error in the continuation banner. -/
theorem claim_C1_amended (st : SingleState) (newAudio : Blob) (a : Blob)
    (ha : st.audioBlob = some a) :
    (∀ (e : Str) (chatRes : Except Str Nat),
      handleContinueDictation st newAudio (.error e) chatRes = (st, some e)) ∧
    (∀ (fs : List Str) (e : Str),
      handleContinueDictation st newAudio (.ok fs) (.error e) =
        ({ st with
            findings := st.findings ++ fs
            audioBlob := some (mergeTwoBlobs a newAudio (getCleanMimeType a)) },
         some e)) ∧
    (∀ (procRes : Except Str (List Str)) (chatRes : Except Str Nat),
      (handleContinueDictation st newAudio procRes chatRes).1.status =
          st.status ∧
      (handleContinueDictation st newAudio procRes chatRes).1.error =
          st.error) ∧
    (∀ (procRes : Except Str (List Str)) (chatRes : Except Str Nat) (st' : SingleState) (e : Str),
      handleContinueDictation st newAudio procRes chatRes = (st', some e) →
      st'.chatHistory = st.chatHistory ∧ st'.chat = st.chat) ∧
    (∀ (bs : List Batch) (batchId : Str) (stat : ContStatus)
       (err0 : Option Str) (blob : Blob) (batch : Batch)
       (fs : List (Option Str)) (e : Str),
      bs.find? (fun b => b.id == batchId) = some batch →
      batch.findings = some fs → 0 < blobSize blob →
      (∀ (chatRes : Except Str Nat),
        handleStopContinueB bs ⟨some batchId, stat, err0⟩ (some blob)
          (.error e) chatRes = (bs, ⟨some batchId, .idle, some e⟩)) ∧
      (∀ (fs2 : List Str),
        handleStopContinueB bs ⟨some batchId, stat, err0⟩ (some blob)
          (.ok fs2) (.error e) = (bs, ⟨some batchId, .idle, some e⟩))) := by
  refine ⟨?_, ?_, ?_, ?_, ?_⟩
  · intro e chatRes
    unfold handleContinueDictation
    rw [ha]
  · intro fs e
    unfold handleContinueDictation
    rw [ha]
  · intro procRes chatRes
    unfold handleContinueDictation
    rw [ha]
    cases procRes with
    | error e => exact ⟨rfl, rfl⟩
    | ok fs =>
      cases chatRes with
      | error e => exact ⟨rfl, rfl⟩
      | ok c => exact ⟨rfl, rfl⟩
  · intro procRes chatRes st' e heq
    unfold handleContinueDictation at heq
    rw [ha] at heq
    cases procRes with
    | error e2 =>
      obtain ⟨rfl, -⟩ := Prod.mk.injEq .. ▸ heq
      exact ⟨rfl, rfl⟩
    | ok fs =>
      cases chatRes with
      | error e2 =>
        obtain ⟨rfl, -⟩ := Prod.mk.injEq .. ▸ heq
        exact ⟨rfl, rfl⟩
      | ok c => simp at heq
  · intro bs batchId stat err0 blob batch fs e hfind hfs hsz
    constructor
    · intro chatRes
      unfold handleStopContinueB
      dsimp only
      rw [if_pos hsz, hfind]
      dsimp only
      rw [hfs]
    · intro fs2
      unfold handleStopContinueB
      dsimp only
      rw [if_pos hsz, hfind]
      dsimp only
      rw [hfs]

/-- C1 (witness): the amended statement instantiated on a concrete
session with three findings. -/
theorem claim_C1_witness :
    handleContinueDictation
      { status := .success
        findings := [("f1".data), ("f2".data), ("f3".data)]
        error := none
        audioBlob := some ⟨[1, 2, 3], ("audio/webm".data)⟩
        chat := some 0
        chatHistory := [⟨.ai, ("h".data)⟩]
        selectedModel := defaultModel }
      ⟨[4], ("audio/webm".data)⟩ (.error ("x".data)) (.ok 7) =
      ({ status := .success
         findings := [("f1".data), ("f2".data), ("f3".data)]
         error := none
         audioBlob := some ⟨[1, 2, 3], ("audio/webm".data)⟩
         chat := some 0
         chatHistory := [⟨.ai, ("h".data)⟩]
         selectedModel := defaultModel }, some ("x".data)) := by
  have h := claim_C1_amended
    { status := .success
      findings := [("f1".data), ("f2".data), ("f3".data)]
      error := none
      audioBlob := some ⟨[1, 2, 3], ("audio/webm".data)⟩
      chat := some 0
      chatHistory := [⟨.ai, ("h".data)⟩]
      selectedModel := defaultModel }
    ⟨[4], ("audio/webm".data)⟩ ⟨[1, 2, 3], ("audio/webm".data)⟩ rfl
  exact h.1 ("x".data) (.ok 7)

/-- C10 (counterexample): a reprocess whose transcription succeeds but
whose chat re-creation throws ends in `error` status with the freshly
transcribed findings — not with the empty list the claim states. -/
theorem claim_C10_counterexample :
    (handleReprocess
      { status := .success
        findings := [("old".data)]
        error := none
        audioBlob := some ⟨[9], ("audio/ogg".data)⟩
        chat := some 0
        chatHistory := []
        selectedModel := defaultModel }
      (.ok [("new".data)]) (.error ("boom".data))).status = .error ∧
    (handleReprocess
      { status := .success
        findings := [("old".data)]
        error := none
        audioBlob := some ⟨[9], ("audio/ogg".data)⟩
        chat := some 0
        chatHistory := []
        selectedModel := defaultModel }
      (.ok [("new".data)]) (.error ("boom".data))).findings =
        [("new".data)] ∧
    [("new".data : Str)] ≠ ([] : List Str) := by
  decide

/-- C10 (amended): a failed reprocess never restores the pre-reprocess
findings. In single mode a failing transcription call ends in `error`
status with the findings cleared to empty; a failing chat re-creation
after a successful transcription ends in `error` status with the freshly
transcribed findings (and the new audio stored). In batch mode every
failing step moves the batch to `error` with its findings cleared to
`null`, leaving all other batches unchanged. -/
theorem claim_C10_amended (st : SingleState) (a : Blob)
    (ha : st.audioBlob = some a) (hsz : 0 < blobSize a) :
    (∀ (e : Str) (chatRes : Except Str Nat),
      handleReprocess st (.error e) chatRes =
        { st with status := .error, error := some e, findings := [] }) ∧
    (∀ (fs : List Str) (e : Str),
      handleReprocess st (.ok fs) (.error e) =
        { st with status := .error, error := some e, findings := fs,
                  audioBlob := some a }) ∧
    (∀ (bs : List Batch) (batchId : Str) (batch : Batch) (e : Str)
       (procRes : Except Str (List Str)) (chatRes : Except Str Nat),
      bs.find? (fun b => b.id == batchId) = some batch →
      batch.audioBlobs.isEmpty = false →
      (procRes = .error e ∨
        (∃ fs2, procRes = .ok fs2 ∧ chatRes = .error e)) →
      handleReprocessBatch bs batchId procRes chatRes =
        bs.map (fun b =>
          if b.id = batchId then
            { b with status := .error, error := some e, findings := none }
          else b)) := by
  have hne : ¬ blobSize a = 0 := Nat.pos_iff_ne_zero.mp hsz
  refine ⟨?_, ?_, ?_⟩
  · intro e chatRes
    unfold handleReprocess
    rw [ha]
    unfold handleRecordingComplete
    simp only [if_neg hne, ha]
  · intro fs e
    unfold handleReprocess
    rw [ha]
    unfold handleRecordingComplete
    simp only [if_neg hne, ha]
  · intro bs batchId batch e procRes chatRes hfind hblobs hfail
    unfold handleReprocessBatch
    rw [hfind]
    dsimp only
    rw [hblobs, if_neg (by simp)]
    rcases hfail with rfl | ⟨fs2, rfl, rfl⟩
    · dsimp only
      rw [List.map_map]
      refine List.map_congr_left ?_
      intro b hb
      by_cases hbid : b.id = batchId <;> simp [hbid]
    · dsimp only
      rw [List.map_map]
      refine List.map_congr_left ?_
      intro b hb
      by_cases hbid : b.id = batchId <;> simp [hbid]

/-- C10 (witness): the amended statement instantiated on a session with
one old finding. -/
theorem claim_C10_witness :
    handleReprocess
      { status := .success
        findings := [("old".data)]
        error := none
        audioBlob := some ⟨[9], ("audio/ogg".data)⟩
        chat := some 0
        chatHistory := []
        selectedModel := defaultModel }
      (.error ("boom".data)) (.ok 1) =
      { status := .error
        findings := []
        error := some ("boom".data)
        audioBlob := some ⟨[9], ("audio/ogg".data)⟩
        chat := some 0
        chatHistory := []
        selectedModel := defaultModel } := by
  have h := claim_C10_amended
    { status := .success
      findings := [("old".data)]
      error := none
      audioBlob := some ⟨[9], ("audio/ogg".data)⟩
      chat := some 0
      chatHistory := []
      selectedModel := defaultModel }
    ⟨[9], ("audio/ogg".data)⟩ rfl (by decide)
  exact h.1 ("boom".data) (.ok 1)

/-- C6 (counterexample): in batch mode the edit write is not guarded: an
edit at index 2 of a one-element findings array extends it to length 3
with an `undefined` hole, so the out-of-range edit is not a no-op. -/
theorem claim_C6_counterexample :
    handleUpdateFindingForBatch
      [{ id := ("b1".data)
         name := ("n".data)
         audioBlobs := []
         findings := some [some ("a".data)]
         status := .complete
         selectedModel := defaultModel
         error := none
         chat := none
         chatHistory := []
         isChatting := false }]
      ("b1".data) 2 ("x".data) =
      [{ id := ("b1".data)
         name := ("n".data)
         audioBlobs := []
         findings := some [some ("a".data), none, some ("x".data)]
         status := .complete
         selectedModel := defaultModel
         error := none
         chat := none
         chatHistory := []
         isChatting := false }] ∧
    (some [some ("a".data), none, some ("x".data)] :
        Option (List (Option Str))) ≠ some [some ("a".data)] := by
  decide

/-- C6 (amended): in single mode a manual edit at an index with no
existing finding is a no-op and an in-range edit replaces in place; in
batch mode the write to the findings array is unguarded: in range it
replaces in place, out of range it extends the array to length
`index + 1` with `undefined` holes, so the out-of-range edit is not a
no-op there. -/
theorem claim_C6_amended (findings : List Str) (index : Nat) (newText : Str) :
    (findings.length ≤ index →
      handleUpdateFinding findings index newText = findings) ∧
    (index < findings.length →
      handleUpdateFinding findings index newText =
        findings.set index newText) ∧
    (∀ (fs : List (Option Str)), index < fs.length →
      jsArrayWrite fs index newText = fs.set index (some newText)) ∧
    (∀ (fs : List (Option Str)), fs.length ≤ index →
      jsArrayWrite fs index newText =
        fs ++ List.replicate (index - fs.length) none ++ [some newText] ∧
      (jsArrayWrite fs index newText).length = index + 1) := by
  refine ⟨?_, ?_, ?_, ?_⟩
  · intro h
    unfold handleUpdateFinding
    rw [if_neg (Nat.not_lt.mpr h)]
  · intro h
    unfold handleUpdateFinding
    rw [if_pos h]
  · intro fs h
    unfold jsArrayWrite
    rw [if_pos h]
  · intro fs h
    unfold jsArrayWrite
    rw [if_neg (Nat.not_lt.mpr h)]
    refine ⟨rfl, ?_⟩
    simp only [List.length_append, List.length_replicate, List.length_cons,
      List.length_nil]
    omega

/-- C6 (witness): single-mode out-of-range edit on a two-element list is a
no-op. -/
theorem claim_C6_witness :
    handleUpdateFinding [("a".data), ("b".data)] 5 ("x".data) =
      [("a".data), ("b".data)] :=
  (claim_C6_amended [("a".data), ("b".data)] 5 ("x".data)).1 (by decide)

/-- C7 (counterexample): with a decoder that fails on the stored payload
(malformed base64), the snapshot is still restored — status `success`,
findings loaded, an empty audio blob substituted — and the storage key is
not removed, contradicting the claim that the corrupt snapshot is
discarded. -/
theorem claim_C7_counterexample :
    loadSingleState (fun _ => none)
      { status := .idle
        findings := []
        error := none
        audioBlob := none
        chat := none
        chatHistory := []
        selectedModel := defaultModel }
      (some (.ok
        { findings := some [("f".data)]
          audio := some { data := ("!!".data), type := ("audio/ogg".data) }
          chatHistory := none
          selectedModel := none })) =
      ({ status := .success
         findings := [("f".data)]
         error := none
         audioBlob := some ⟨[], ("audio/ogg".data)⟩
         chat := none
         chatHistory := []
         selectedModel := defaultModel }, false) ∧
    (false ≠ true) := by
  decide

/-- C7 (amended): a malformed-base64 decode failure is caught inside
`base64ToBlob`, which substitutes an empty audio blob; the snapshot is
still restored (status `success`, findings, chat history, model) and the
storage key is kept. The key is removed only when the restore block
itself throws, e.g. on malformed JSON. -/
theorem claim_C7_amended (dec : Str → Option (List Nat)) (st : SingleState)
    (saved : SavedSingle) (fs : List Str) (au : SavedAudio)
    (hf : saved.findings = some fs) (hau : saved.audio = some au)
    (hlen : 0 < fs.length) :
    loadSingleState dec st (some (.ok saved)) =
      ({ st with
          findings := fs
          audioBlob := some (base64ToBlob dec au.data au.type)
          chatHistory := saved.chatHistory.getD []
          status := .success
          selectedModel := saved.selectedModel.getD defaultModel }, false) ∧
    (dec au.data = none → base64ToBlob dec au.data au.type =
      { bytes := [], btype := au.type }) ∧
    loadSingleState dec st (some (.error ())) = (st, true) := by
  refine ⟨?_, ?_, rfl⟩
  · unfold loadSingleState
    dsimp only
    rw [hf, hau]
    dsimp only
    rw [if_pos hlen]
  · intro hdec
    unfold base64ToBlob
    rw [hdec]

/-- C7 (witness): the amended statement instantiated with a failing
decoder on a one-finding snapshot. -/
theorem claim_C7_witness :
    loadSingleState (fun _ => none)
      { status := .idle
        findings := []
        error := none
        audioBlob := none
        chat := none
        chatHistory := []
        selectedModel := defaultModel }
      (some (.ok
        { findings := some [("f".data)]
          audio := some { data := ("!!".data), type := ("audio/ogg".data) }
          chatHistory := none
          selectedModel := none })) =
      ({ status := .success
         findings := [("f".data)]
         error := none
         audioBlob := some (base64ToBlob (fun _ => none) ("!!".data)
           ("audio/ogg".data))
         chat := none
         chatHistory := []
         selectedModel := defaultModel }, false) :=
  (claim_C7_amended (fun _ => none)
    { status := .idle
      findings := []
      error := none
      audioBlob := none
      chat := none
      chatHistory := []
      selectedModel := defaultModel }
    { findings := some [("f".data)]
      audio := some { data := ("!!".data), type := ("audio/ogg".data) }
      chatHistory := none
      selectedModel := none }
    [("f".data)] { data := ("!!".data), type := ("audio/ogg".data) }
    rfl rfl (by decide)).1

/-- C9: when the captured audio is absent or empty, the per-finding
append, the per-finding modify, and continue-dictation (single and batch
mode) are silent no-ops: the result does not depend on any client outcome
(so no client is called), the finding state is returned unchanged, the
interaction slot is merely cleared, and no error is recorded. -/
theorem claim_C9 :
    (∀ (findings : List Str) (rd : RDState) (idx : Nat) (blob : Blob)
       (contRes : Except Str Str),
      rd.dictatingIndex = some idx → blobSize blob = 0 →
      handleStopDictationS findings rd (some blob) contRes =
        (findings, { rd with dictatingIndex := none })) ∧
    (∀ (findings : List Str) (rd : RDState) (idx : Nat)
       (contRes : Except Str Str),
      rd.dictatingIndex = some idx →
      handleStopDictationS findings rd none contRes =
        (findings, { rd with dictatingIndex := none })) ∧
    (∀ (findings : List Str) (rd : RDState) (idx : Nat) (blob : Blob)
       (modRes : Except Str Str),
      rd.dictateEditingIndex = some idx → blobSize blob = 0 →
      handleStopDictateEditS findings rd (some blob) modRes =
        (findings, { rd with dictateEditingIndex := none })) ∧
    (∀ (findings : List Str) (rd : RDState) (idx : Nat)
       (modRes : Except Str Str),
      rd.dictateEditingIndex = some idx →
      handleStopDictateEditS findings rd none modRes =
        (findings, { rd with dictateEditingIndex := none })) ∧
    (∀ (st : SingleState) (blob : Blob) (procRes : Except Str (List Str))
       (chatRes : Except Str Nat),
      blobSize blob = 0 →
      handleStopContinueS st (some blob) procRes chatRes =
        (st, ⟨.idle, none⟩)) ∧
    (∀ (st : SingleState) (procRes : Except Str (List Str))
       (chatRes : Except Str Nat),
      handleStopContinueS st none procRes chatRes = (st, ⟨.idle, none⟩)) ∧
    (∀ (bs : List Batch) (rd : BRDState) (batchId : Str) (idx : Nat)
       (blob : Blob) (contRes : Except Str Str),
      rd.dictatingState = some (batchId, idx) → blobSize blob = 0 →
      handleStopDictationB bs rd (some blob) contRes =
        (bs, { rd with dictatingState := none })) ∧
    (∀ (bs : List Batch) (rd : BRDState) (batchId : Str) (idx : Nat)
       (contRes : Except Str Str),
      rd.dictatingState = some (batchId, idx) →
      handleStopDictationB bs rd none contRes =
        (bs, { rd with dictatingState := none })) ∧
    (∀ (bs : List Batch) (cs : BContState) (batchId : Str) (blob : Blob)
       (procRes : Except Str (List Str)) (chatRes : Except Str Nat),
      cs.batchId = some batchId → blobSize blob = 0 →
      handleStopContinueB bs cs (some blob) procRes chatRes =
        (bs, ⟨none, .idle, none⟩)) ∧
    (∀ (bs : List Batch) (cs : BContState) (batchId : Str)
       (procRes : Except Str (List Str)) (chatRes : Except Str Nat),
      cs.batchId = some batchId →
      handleStopContinueB bs cs none procRes chatRes =
        (bs, ⟨none, .idle, none⟩)) := by
  refine ⟨?_, ?_, ?_, ?_, ?_, ?_, ?_, ?_, ?_, ?_⟩
  · intro findings rd idx blob contRes hidx hsz
    unfold handleStopDictationS
    rw [hidx]
    dsimp only
    rw [if_neg (by rw [hsz]; exact Nat.lt_irrefl 0)]
  · intro findings rd idx contRes hidx
    unfold handleStopDictationS
    rw [hidx]
  · intro findings rd idx blob modRes hidx hsz
    unfold handleStopDictateEditS
    rw [hidx]
    dsimp only
    rw [if_neg (by rw [hsz]; exact Nat.lt_irrefl 0)]
  · intro findings rd idx modRes hidx
    unfold handleStopDictateEditS
    rw [hidx]
  · intro st blob procRes chatRes hsz
    unfold handleStopContinueS
    dsimp only
    rw [if_neg (by rw [hsz]; exact Nat.lt_irrefl 0)]
  · intro st procRes chatRes
    rfl
  · intro bs rd batchId idx blob contRes hidx hsz
    unfold handleStopDictationB
    rw [hidx]
    dsimp only
    rcases hfind : bs.find? (fun b => b.id == batchId) with - | batch <;>
      rw [hfind]
    dsimp only
    rcases hfs : batch.findings with - | fs
    · rfl
    · dsimp only
      rw [if_neg (by rw [hsz]; exact Nat.lt_irrefl 0)]
  · intro bs rd batchId idx contRes hidx
    unfold handleStopDictationB
    rw [hidx]
    dsimp only
    rcases hfind : bs.find? (fun b => b.id == batchId) with - | batch <;>
      rw [hfind]
  · intro bs cs batchId blob procRes chatRes hidx hsz
    unfold handleStopContinueB
    rw [hidx]
    dsimp only
    rw [if_neg (by rw [hsz]; exact Nat.lt_irrefl 0)]
  · intro bs cs batchId procRes chatRes hidx
    unfold handleStopContinueB
    rw [hidx]

/-- C9 (witness): the single-mode append handler with an empty capture on
a concrete state. -/
theorem claim_C9_witness :
    handleStopDictationS [("a".data)]
      { editingIndex := none
        editingText := []
        dictatingIndex := some 0
        dictateEditingIndex := none
        processingIndex := none
        continuationError := none }
      (some ⟨[], ("audio/webm".data)⟩) (.error ("never".data)) =
      ([("a".data)],
       { editingIndex := none
         editingText := []
         dictatingIndex := none
         dictateEditingIndex := none
         processingIndex := none
         continuationError := none }) :=
  claim_C9.1 [("a".data)]
    { editingIndex := none
      editingText := []
      dictatingIndex := some 0
      dictateEditingIndex := none
      processingIndex := none
      continuationError := none }
    0 ⟨[], ("audio/webm".data)⟩ (.error ("never".data)) rfl rfl

/-- C8: the multi-select copy is order-insensitive (any two selections
that are permutations of each other produce the same plain text, because
the indices are sorted ascending first); a non-empty captured snippet is
used verbatim in place of the rendered finding; on findings
`["A###B###C", "D"]` with selection `{0, 1}` — clicked in either order —
the plain text is `"A\nB\nC\nD"`; and the batch-mode copy produces the
same text as the single-mode copy over that batch's findings and
snippets. -/
theorem claim_C8 (findings : List Str) (snippets : Nat → Option Str)
    (l1 l2 : List Nat) :
    (l1.Perm l2 →
      copySelectionPlain findings snippets l1 =
        copySelectionPlain findings snippets l2) ∧
    (∀ (i : Nat) (s : Str), snippets i = some s → s ≠ [] →
      copySelectionPlain findings snippets [i] = s) ∧
    (∀ (i : Nat), copySelectionPlain findings (fun _ => none) [i] =
      renderFindingPlain (findings.getD i [])) ∧
    copySelectionPlain [("A###B###C".data), ("D".data)] (fun _ => none)
      [1, 0] = ("A\nB\nC\nD".data) ∧
    copySelectionPlain [("A###B###C".data), ("D".data)] (fun _ => none)
      [0, 1] = ("A\nB\nC\nD".data) ∧
    (∀ (bs : List Batch) (bsnips : Str → Nat → Option Str) (batchId : Str)
       (batch : Batch) (fsb : List (Option Str)) (sel : List Nat),
      bs.find? (fun b => b.id == batchId) = some batch →
      batch.findings = some fsb → sel ≠ [] →
      copyBatchSelectionPlain bs bsnips batchId sel =
        some (copySelectionPlain (fsb.map (fun o => o.getD []))
          (bsnips batchId) sel)) := by
  refine ⟨?_, ?_, ?_, by decide, by decide, ?_⟩
  · intro hperm
    unfold copySelectionPlain
    have hsorted : List.insertionSort (· ≤ ·) l1 =
        List.insertionSort (· ≤ ·) l2 := by
      refine List.eq_of_perm_of_sorted ?_
        (List.sorted_insertionSort _ l1) (List.sorted_insertionSort _ l2)
      exact ((List.perm_insertionSort _ l1).trans hperm).trans
        (List.perm_insertionSort _ l2).symm
    rw [hsorted]
  · intro i s hs hne
    unfold copySelectionPlain
    rw [show List.insertionSort (· ≤ ·) [i] = [i] from rfl]
    simp only [List.map_cons, List.map_nil, hs, Option.getD_some,
      if_pos hne]
    exact intercalate_single nlSep s
  · intro i
    unfold copySelectionPlain
    rw [show List.insertionSort (· ≤ ·) [i] = [i] from rfl]
    simp only [List.map_cons, List.map_nil, Option.getD_none, ne_eq,
      not_true_eq_false, if_false]
    exact intercalate_single nlSep _
  · intro bs bsnips batchId batch fsb sel hfind hfs hne
    unfold copyBatchSelectionPlain
    rw [hfind]
    dsimp only
    rw [hfs]
    dsimp only
    rw [if_neg (by rw [Ne, ← List.isEmpty_iff] at hne; simp [hne])]

/-- C8 (witness): order-insensitivity and the snippet override at concrete
inputs. -/
theorem claim_C8_witness :
    copySelectionPlain [("A###B###C".data), ("D".data)] (fun _ => none)
        [1, 0] =
      copySelectionPlain [("A###B###C".data), ("D".data)] (fun _ => none)
        [0, 1] ∧
    copySelectionPlain [("A###B###C".data), ("D".data)]
      (fun i => if i = 0 then some ("snip".data) else none) [0] =
      ("snip".data) := by
  have h := claim_C8 [("A###B###C".data), ("D".data)] (fun _ => none)
    [1, 0] [0, 1]
  have h2 := claim_C8 [("A###B###C".data), ("D".data)]
    (fun i => if i = 0 then some ("snip".data) else none) [0] [0]
  exact ⟨h.1 (by decide), h2.2.1 0 ("snip".data) (by decide) (by decide)⟩

/-- C4: with distinct batch ids, `handleProcessAll` resolves exactly the
eligible batches — status `complete` or `paused`, at least one audio
artifact, no findings yet — marking them `processing` first; each batch
receives its own outcome (success to `complete` with findings, failure to
`error`) and every other batch is untouched; a batch with no audio
artifacts is never eligible. -/
theorem claim_C4 (bs : List Batch)
    (outs : Str → Except Str (List Str × Nat))
    (hnd : (bs.map Batch.id).Nodup) :
    handleProcessAll bs outs = bs.map (fun b =>
      if eligibleForProcessing b = true then processResolve (outs b.id) b
      else b) ∧
    markProcessing bs = bs.map (fun b =>
      if eligibleForProcessing b = true then { b with status := .processing }
      else b) ∧
    (∀ b : Batch, b.audioBlobs = [] → eligibleForProcessing b = false) ∧
    (∀ b : Batch, eligibleForProcessing b = true →
      (b.status = .complete ∨ b.status = .paused) ∧ b.audioBlobs ≠ [] ∧
        b.findings = none) := by
  refine ⟨handleProcessAll_eq bs outs hnd, markProcessing_eq bs hnd, ?_, ?_⟩
  · intro b hb
    unfold eligibleForProcessing
    rw [hb]
    simp
  · intro b hb
    unfold eligibleForProcessing at hb
    simp only [Bool.and_eq_true, Bool.or_eq_true, beq_iff_eq,
      Bool.not_eq_true', Option.isNone_iff_eq_none] at hb
    refine ⟨hb.1.1, ?_, hb.2⟩
    rw [Ne, ← List.isEmpty_iff]
    simp [hb.1.2]

/-- C4 (witness): the three-batch scenario — no audio, audio without
findings, findings present — processes exactly the middle batch. -/
theorem claim_C4_witness :
    handleProcessAll
      [{ id := ("b1".data), name := ("n1".data), audioBlobs := [],
         findings := none, status := .complete,
         selectedModel := defaultModel, error := none, chat := none,
         chatHistory := [], isChatting := false },
       { id := ("b2".data), name := ("n2".data),
         audioBlobs := [⟨[1], ("audio/webm".data)⟩],
         findings := none, status := .complete,
         selectedModel := defaultModel, error := none, chat := none,
         chatHistory := [], isChatting := false },
       { id := ("b3".data), name := ("n3".data),
         audioBlobs := [⟨[2], ("audio/webm".data)⟩],
         findings := some [some ("done".data)], status := .complete,
         selectedModel := defaultModel, error := none, chat := none,
         chatHistory := [], isChatting := false }]
      (fun _ => .ok ([("t".data)], 5)) =
      [{ id := ("b1".data), name := ("n1".data), audioBlobs := [],
         findings := none, status := .complete,
         selectedModel := defaultModel, error := none, chat := none,
         chatHistory := [], isChatting := false },
       { id := ("b2".data), name := ("n2".data),
         audioBlobs := [⟨[1], ("audio/webm".data)⟩],
         findings := some [some ("t".data)], status := .complete,
         selectedModel := defaultModel, error := none, chat := some 5,
         chatHistory := [⟨.ai, chatIntro [("t".data)] greetBatch⟩],
         isChatting := false },
       { id := ("b3".data), name := ("n3".data),
         audioBlobs := [⟨[2], ("audio/webm".data)⟩],
         findings := some [some ("done".data)], status := .complete,
         selectedModel := defaultModel, error := none, chat := none,
         chatHistory := [], isChatting := false }] := by
  rw [(claim_C4
    [{ id := ("b1".data), name := ("n1".data), audioBlobs := [],
       findings := none, status := .complete,
       selectedModel := defaultModel, error := none, chat := none,
       chatHistory := [], isChatting := false },
     { id := ("b2".data), name := ("n2".data),
       audioBlobs := [⟨[1], ("audio/webm".data)⟩],
       findings := none, status := .complete,
       selectedModel := defaultModel, error := none, chat := none,
       chatHistory := [], isChatting := false },
     { id := ("b3".data), name := ("n3".data),
       audioBlobs := [⟨[2], ("audio/webm".data)⟩],
       findings := some [some ("done".data)], status := .complete,
       selectedModel := defaultModel, error := none, chat := none,
       chatHistory := [], isChatting := false }]
    (fun _ => .ok ([("t".data)], 5)) (by decide)).1]
  decide

/-- C5: in every reachable registry state at most one batch is
`recording`; and starting a recording on a different batch `B` while `A`
is recording first stops `A` — committing exactly one captured audio
artifact to `A`'s list and moving `A` to `paused` — after which `B`, and
only batches with `B`'s id, are recording. -/
theorem claim_C5 (s : BPState) (hreach : ReachableBP s)
    (A : Batch) (hA : A ∈ s.batches) (hArec : A.status = .recording)
    (targetId : Str) (htid : targetId ≠ A.id)
    (B : Batch) (hB : B ∈ s.batches) (hBid : B.id = targetId)
    (blob : Blob) (hrb : s.recorderBlob = some blob) (newBlob : Blob) :
    (∀ a ∈ s.batches, ∀ b ∈ s.batches,
      a.status = .recording → b.status = .recording → a = b) ∧
    { A with audioBlobs := A.audioBlobs ++ [blob], status := .paused } ∈
      (recordOrResumeF s targetId newBlob).batches ∧
    { B with status := .recording } ∈
      (recordOrResumeF s targetId newBlob).batches ∧
    (∀ b' ∈ (recordOrResumeF s targetId newBlob).batches,
      b'.status = .recording ↔ b'.id = targetId) := by
  obtain ⟨hnd, hrec⟩ := recInv_reachable hreach
  have h2 : s.activeBatchId = some A.id := (hrec A hA hArec).2
  have hbatches : (recordOrResumeF s targetId newBlob).batches =
      (s.batches.map (fun b =>
        if b.id = A.id then
          { b with audioBlobs := b.audioBlobs ++ [blob], status := .paused }
        else b)).map (fun b =>
          if b.id = targetId then { b with status := .recording } else b) := by
    unfold recordOrResumeF
    rw [hrb, h2]
    dsimp only
    rw [if_pos (fun h => htid h.symm)]
  refine ⟨?_, ?_, ?_, ?_⟩
  · intro a ha b hb har hbr
    have hax := (hrec a ha har).2
    have hbx := (hrec b hb hbr).2
    rw [hax] at hbx
    exact List.inj_on_of_nodup_map hnd ha hb (Option.some_injective _ hbx)
  · rw [hbatches]
    refine List.mem_map.mpr
      ⟨{ A with audioBlobs := A.audioBlobs ++ [blob], status := .paused },
       List.mem_map.mpr ⟨A, hA, by rw [if_pos rfl]⟩, ?_⟩
    rw [if_neg (fun h => htid (h.symm : targetId = A.id))]
  · rw [hbatches]
    refine List.mem_map.mpr ⟨B, List.mem_map.mpr ⟨B, hB, ?_⟩, ?_⟩
    · rw [if_neg (fun h => htid (hBid ▸ h))]
    · rw [if_pos hBid]
  · intro b' hb'
    rw [hbatches] at hb'
    obtain ⟨b1, hb1m, rfl⟩ := List.mem_map.mp hb'
    obtain ⟨b0, hb0, rfl⟩ := List.mem_map.mp hb1m
    by_cases hb0A : b0.id = A.id
    · rw [if_pos hb0A]
      rw [if_neg (fun h => htid (Eq.trans (Eq.symm h) hb0A))]
      constructor
      · intro hcon
        simp at hcon
      · intro hid
        exfalso
        exact htid (Eq.trans (Eq.symm hid) hb0A)
    · rw [if_neg hb0A]
      by_cases hb0t : b0.id = targetId
      · rw [if_pos hb0t]
        exact ⟨fun _ => hb0t, fun _ => rfl⟩
      · rw [if_neg hb0t]
        constructor
        · intro hrecb
          have hx := (hrec b0 hb0 hrecb).2
          rw [h2] at hx
          exact absurd (Option.some_injective _ hx).symm hb0A
        · intro hid
          exact absurd hid hb0t

/-- C5 (witness): add two batches, record the first, then start recording
the second: the first ends `paused` with exactly one committed artifact
and the second is recording. -/
theorem claim_C5_witness :
    { id := ("a".data), name := ("Dictation #1".data),
      audioBlobs := [⟨[1], ("audio/webm".data)⟩], findings := none,
      status := .paused, selectedModel := defaultModel, error := none,
      chat := none, chatHistory := [], isChatting := false } ∈
      (recordOrResumeF
        (recordOrResumeF
          (addBatchF (addBatchF (initBP defaultModel) ("a".data))
            ("b".data))
          ("a".data) ⟨[1], ("audio/webm".data)⟩)
        ("b".data) ⟨[2], ("audio/webm".data)⟩).batches ∧
    { id := ("b".data), name := ("Dictation #2".data), audioBlobs := [],
      findings := none, status := .recording,
      selectedModel := defaultModel, error := none, chat := none,
      chatHistory := [], isChatting := false } ∈
      (recordOrResumeF
        (recordOrResumeF
          (addBatchF (addBatchF (initBP defaultModel) ("a".data))
            ("b".data))
          ("a".data) ⟨[1], ("audio/webm".data)⟩)
        ("b".data) ⟨[2], ("audio/webm".data)⟩).batches := by
  have hreach : ReachableBP
      (recordOrResumeF
        (addBatchF (addBatchF (initBP defaultModel) ("a".data)) ("b".data))
        ("a".data) ⟨[1], ("audio/webm".data)⟩) :=
    ReachableBP.step
      (ReachableBP.step
        (ReachableBP.step (ReachableBP.init defaultModel)
          (BStep.addBatch _ ("a".data) (by decide)))
        (BStep.addBatch _ ("b".data) (by decide)))
      (BStep.recordOrResume _ ("a".data) ⟨[1], ("audio/webm".data)⟩)
  have h := claim_C5
    (recordOrResumeF
      (addBatchF (addBatchF (initBP defaultModel) ("a".data)) ("b".data))
      ("a".data) ⟨[1], ("audio/webm".data)⟩)
    hreach
    { id := ("a".data), name := ("Dictation #1".data), audioBlobs := [],
      findings := none, status := .recording,
      selectedModel := defaultModel, error := none, chat := none,
      chatHistory := [], isChatting := false }
    (by decide) rfl ("b".data) (by decide)
    { id := ("b".data), name := ("Dictation #2".data), audioBlobs := [],
      findings := none, status := .idle, selectedModel := defaultModel,
      error := none, chat := none, chatHistory := [], isChatting := false }
    (by decide) rfl ⟨[1], ("audio/webm".data)⟩ rfl
    ⟨[2], ("audio/webm".data)⟩
  exact ⟨h.2.1, h.2.2.1⟩

end RadReport
